import Mathlib

/-!
Verification of the dwv DICOM parser core (`src/dicom/dicomParser.js`).

The JavaScript source is shallowly embedded: byte buffers become `List Nat`
(each entry a byte value; reads reduce entries modulo 256 exactly as a JS
`DataView` over an `ArrayBuffer` can only ever produce bytes), JS strings
become `String`, JS numbers appearing as unsigned reads become `Nat` and
signed reads `Int`, and the unbounded `while` loops of the source become
fuel-indexed recursion returning `Option`/`Except` (with `none` marking fuel
exhaustion, which can only happen below the fuel any terminating JS run
uses).  The DICOM dictionary (`dwv.dicom.dictionary`, a separate data file
of the repository) is an injected read-only lookup parameter.
-/

namespace Dwv

/-- One byte of the input buffer (out-of-range reads are totalized to 0;
the parser only reads in range on the runs the theorems talk about). -/
def byteAt (buf : List Nat) (i : Nat) : Nat := (buf.getD i 0) % 256

/-- Source `DataReader.readUint16`: two bytes at `off`, little or big endian. -/
def readUint16 (buf : List Nat) (le : Bool) (off : Nat) : Nat :=
  if le then byteAt buf off + 256 * byteAt buf (off + 1)
  else byteAt buf (off + 1) + 256 * byteAt buf off

/-- Source `DataReader.readUint32`: four bytes at `off`, little or big endian. -/
def readUint32 (buf : List Nat) (le : Bool) (off : Nat) : Nat :=
  if le then
    byteAt buf off + 256 * byteAt buf (off + 1) + 65536 * byteAt buf (off + 2) +
      16777216 * byteAt buf (off + 3)
  else
    byteAt buf (off + 3) + 256 * byteAt buf (off + 2) + 65536 * byteAt buf (off + 1) +
      16777216 * byteAt buf off

/-- Source `DataReader.readString`: `nChars` bytes decoded through
`String.fromCharCode` (one byte, one code unit). -/
def readString (buf : List Nat) (off n : Nat) : String :=
  String.mk ((List.range n).map (fun i => Char.ofNat (byteAt buf (off + i))))

/-- Uppercase hexadecimal digit. -/
def hexDigit (n : Nat) : Char :=
  if n < 10 then Char.ofNat (48 + n) else Char.ofNat (55 + n)

/-- Uppercase 4-digit hexadecimal rendering of a value below 0x10000,
matching `"0000".substr(0, 4 - str.length) + str.toUpperCase()`. -/
def hex4 (n : Nat) : String :=
  String.mk [hexDigit (n / 4096 % 16), hexDigit (n / 256 % 16),
             hexDigit (n / 16 % 16), hexDigit (n % 16)]

/-- Source `DataReader.readHex`: a `u16` formatted as `"0xGGGG"`, uppercase,
zero padded. -/
def readHex (buf : List Nat) (le : Bool) (off : Nat) : String :=
  "0x" ++ hex4 (readUint16 buf le off)

/-- JS `String.prototype.substr(start, length)`. -/
def jsSubstr (s : String) (start len : Nat) : String :=
  String.mk ((s.toList.drop start).take len)

/-- Source `dwv.dicom.getGroupElementKey`:
`'x' + group.substr(2,6) + element.substr(2,6)`. -/
def getGroupElementKey (group element : String) : String :=
  "x" ++ jsSubstr group 2 6 ++ jsSubstr element 2 6

/-- Source `dwv.dicom.splitGroupElementKey`:
`{group: key.substr(1,4), element: key.substr(5,8)}`. -/
def splitGroupElementKey (key : String) : String × String :=
  (jsSubstr key 1 4, jsSubstr key 5 8)

/-- The JS `WhiteSpace`/`LineTerminator` set recognized by
`String.prototype.trim`. -/
def isJsWhitespace (c : Char) : Bool :=
  let n := c.toNat
  (9 ≤ n && n ≤ 13) || n = 32 || n = 160 || n = 5760 ||
    (8192 ≤ n && n ≤ 8202) || n = 8232 || n = 8233 || n = 8239 ||
    n = 8287 || n = 12288 || n = 65279

/-- JS `String.prototype.trim`: strip leading and trailing whitespace. -/
def jsTrim (s : String) : String :=
  String.mk (((s.toList.dropWhile isJsWhitespace).reverse.dropWhile isJsWhitespace).reverse)

/-- In the source, `String.fromCharCode("u200B")` coerces `"u200B"` with
`ToNumber` (giving `NaN`) and then `ToUint16` (giving `0`), so the
comparison character is U+0000, not the zero-width space U+200B. -/
def fromCharCodeU200B : Char := Char.ofNat 0

/-- Source `dwv.dicom.cleanString`: trim, then drop a final character equal to
`String.fromCharCode("u200B")`.  An empty input is falsy and returned
unchanged. -/
def cleanString (s : String) : String :=
  if s = "" then s
  else
    let res := jsTrim s
    if res.toList.getLast? = some fromCharCodeU200B then
      String.mk res.toList.dropLast
    else res

/-- Source `dwv.dicom.is32bitVLVR`. -/
def is32bitVLVR (vr : String) : Bool :=
  vr = "OB" || vr = "OW" || vr = "OF" || vr = "ox" || vr = "SQ" || vr = "UN"

/-- Source `dwv.dicom.isTagWithVR`. -/
def isTagWithVR (group element : String) : Bool :=
  !(group = "0xFFFE" &&
    (element = "0xE000" || element = "0xE00D" || element = "0xE0DD"))

/-- Source `dwv.dicom.getDataElementPrefixByteSize`. -/
def getDataElementPrefixByteSize (vr : String) : Nat :=
  if is32bitVLVR vr then 12 else 8

/-- A compiled JS regex literal where `.` is a wildcard: `none` entries
match any character except a line terminator. -/
def regexPat (p : String) : List (Option Char) :=
  p.toList.map (fun c => if c = '.' then none else some c)

/-- JS line terminators, which the regex `.` does not match. -/
def isLineTerm (c : Char) : Bool :=
  c.toNat = 10 || c.toNat = 13 || c.toNat = 8232 || c.toNat = 8233

/-- Does the pattern match a prefix of the character list? -/
def patMatchAt : List (Option Char) → List Char → Bool
  | [], _ => true
  | _ :: _, [] => false
  | po :: ps, c :: cs =>
    (match po with
     | none => !isLineTerm c
     | some pc => pc = c) && patMatchAt ps cs

/-- Does the pattern match at some position (JS `String.prototype.match`
returning non-null for an unanchored regex)? -/
def patSearch (p : List (Option Char)) : List Char → Bool
  | [] => patMatchAt p []
  | c :: cs => patMatchAt p (c :: cs) || patSearch p cs

/-- Models `syntax.match(/pat/) !== null` for a dot-wildcard literal pattern. -/
def regexTest (pat s : String) : Bool :=
  patSearch (regexPat pat) s.toList

/-- Source `dwv.dicom.isJpegBaselineTransferSyntax`. -/
def isJpegBaselineTS (s : String) : Bool :=
  s = "1.2.840.10008.1.2.4.50" || s = "1.2.840.10008.1.2.4.51"

/-- Source `dwv.dicom.isJpegLosslessTransferSyntax`. -/
def isJpegLosslessTS (s : String) : Bool :=
  s = "1.2.840.10008.1.2.4.57" || s = "1.2.840.10008.1.2.4.70"

/-- In `isJpegNonSupportedTransferSyntax` the source invokes
`isJpegBaselineTransferSyntax()` and `isJpegLosslessTransferSyntax()` with
no argument: the parameter is `undefined`, every strict string equality
inside is false, so both calls return `false`. -/
def jpegTestNoArgCall : Bool := false

/-- Source `dwv.dicom.isJpegNonSupportedTransferSyntax` (note the unescaped dots
in the regex literals and the argument-less helper calls). -/
def isJpegNonSupportedTS (s : String) : Bool :=
  (regexTest "1.2.840.10008.1.2.4.5" s && !jpegTestNoArgCall && !jpegTestNoArgCall) ||
    regexTest "1.2.840.10008.1.2.4.6" s

/-- Source `dwv.dicom.isJpeglsTransferSyntax`. -/
def isJpeglsTS (s : String) : Bool :=
  regexTest "1.2.840.10008.1.2.4.8" s

/-- Source `dwv.dicom.isJpeg2000TransferSyntax`. -/
def isJpeg2000TS (s : String) : Bool :=
  regexTest "1.2.840.10008.1.2.4.9" s

/-- Outcome of the transfer-syntax dispatch in `parse`: how the data-set
reader is configured when the UID is accepted. -/
structure TSConfig where
  implicit : Bool
  littleEndian : Bool
deriving DecidableEq, Repr

/-- The transfer-syntax `if`/`else` chain of `DicomParser.prototype.parse`
(source lines 940-986): accepted UIDs configure the data reader, the rest
throw. -/
def classifyTS (uid : String) : Except String TSConfig :=
  if uid = "1.2.840.10008.1.2.1" then .ok ⟨false, true⟩
  else if uid = "1.2.840.10008.1.2" then .ok ⟨true, true⟩
  else if uid = "1.2.840.10008.1.2.1.99" then
    .error ("Unsupported DICOM transfer syntax (Deflated Explicit VR): " ++ uid)
  else if uid = "1.2.840.10008.1.2.2" then .ok ⟨false, false⟩
  else if isJpegBaselineTS uid then .ok ⟨false, true⟩
  else if isJpegLosslessTS uid then .ok ⟨false, true⟩
  else if isJpegNonSupportedTS uid then
    .error ("Unsupported DICOM transfer syntax (retired JPEG): " ++ uid)
  else if isJpeglsTS uid then
    .error ("Unsupported DICOM transfer syntax (JPEG-LS): " ++ uid)
  else if isJpeg2000TS uid then .ok ⟨false, true⟩
  else if uid = "1.2.840.10008.1.2.4.100" then
    .error ("Unsupported DICOM transfer syntax (MPEG2): " ++ uid)
  else if uid = "1.2.840.10008.1.2.5" then
    .error ("Unsupported DICOM transfer syntax (RLE): " ++ uid)
  else .error ("Unknown transfer syntax: " ++ uid)

/-- The value-length field as stored on an element: the numeric wire VL, or
the string `"u/l"` recorded when the wire VL was the sentinel 0xFFFFFFFF. -/
inductive VLField where
  | num (n : Nat)
  | ul
deriving DecidableEq, Repr

/-- Result of `DicomParser.prototype.readTag`. -/
structure RTag where
  group : String
  element : String
  name : String
  endOffset : Nat
deriving DecidableEq, Repr

mutual
/-- The heterogeneous `value` stored on a data element: numeric arrays
(`Uint8/16/32`, `Int8/16/32`, and raw float bit patterns), string lists
(character VRs split on backslash, and formatted `AT` tags), item maps of
an `SQ`, or the fragment list of an encapsulated pixel-data element.  Item
maps are association lists mirroring JS object insertion order. -/
inductive DicomValue where
  | nums (l : List Int)
  | strs (l : List String)
  | items (l : List (List (String × DataElement)))
  | frags (l : List DataElement)

/-- Result of `DicomParser.prototype.readDataElement`:
`{tag, vr, vl, value, endOffset}`. -/
inductive DataElement where
  | mk (tag : RTag) (vr : String) (vl : VLField) (value : DicomValue) (endOffset : Nat)
end

def DataElement.tag : DataElement → RTag
  | .mk t _ _ _ _ => t

def DataElement.vr : DataElement → String
  | .mk _ v _ _ _ => v

def DataElement.vl : DataElement → VLField
  | .mk _ _ v _ _ => v

def DataElement.value : DataElement → DicomValue
  | .mk _ _ _ v _ => v

def DataElement.endOffset : DataElement → Nat
  | .mk _ _ _ _ e => e

/-- A JS object used as a keyed element collection, as an insertion-ordered
association list. -/
abbrev ElemMap := List (String × DataElement)

/-- Models `obj[key] = value` on a JS object: overwrite in place if the key
exists (keeping its position), else append. -/
def jsInsert (m : ElemMap) (k : String) (v : DataElement) : ElemMap :=
  if (m.map Prod.fst).contains k then
    m.map (fun p => if p.1 = k then (k, v) else p)
  else m ++ [(k, v)]

/-- Models `obj[key]` on a JS object. -/
def jsLookup (m : ElemMap) (k : String) : Option DataElement :=
  (m.find? (fun p => p.1 = k)).map Prod.snd

/-- Result of `DicomParser.prototype.readItemDataElement`. -/
structure ItemResult where
  data : ElemMap
  endOffset : Nat
  isSeqDelim : Bool

/-- Result of `DicomParser.prototype.readPixelItemDataElement`. -/
structure PixResult where
  data : List DataElement
  endOffset : Nat

/-- The read-only state a single `readDataElement` call sees: the buffer,
the reader's endianness, the implicit-VR flag, the injected DICOM
dictionary (`(group, element) ↦ VR`, the `[0]` entry of
`dwv.dicom.dictionary[group][element]`), and the elements parsed so far
(consulted for BitsAllocated `x00280100`). -/
structure Ctx where
  buf : List Nat
  le : Bool
  implicit : Bool
  dict : String → String → Option String
  elems : ElemMap

/-- Source `DataReader.readUint8Array(offset, size)` (element values). -/
def readUint8ArrayV (buf : List Nat) (off size : Nat) : List Int :=
  (List.range size).map (fun i => (byteAt buf (off + i) : Int))

/-- Source `DataReader.readUint16Array(offset, size)` (element values; the aligned
and unaligned paths produce the same numbers — `getInt16` stored into a
`Uint16Array` wraps back to the unsigned 16-bit value). -/
def readUint16ArrayV (buf : List Nat) (le : Bool) (off size : Nat) : List Int :=
  (List.range (size / 2)).map (fun i => (readUint16 buf le (off + 2 * i) : Int))

/-- Source `DataReader.readInt16Array` values. -/
def readInt16ArrayV (buf : List Nat) (le : Bool) (off size : Nat) : List Int :=
  (List.range (size / 2)).map (fun i =>
    let v := readUint16 buf le (off + 2 * i)
    if v < 32768 then (v : Int) else (v : Int) - 65536)

/-- Source `DataReader.readUint32Array` values. -/
def readUint32ArrayV (buf : List Nat) (le : Bool) (off size : Nat) : List Int :=
  (List.range (size / 4)).map (fun i => (readUint32 buf le (off + 4 * i) : Int))

/-- Source `DataReader.readInt32Array` values. -/
def readInt32ArrayV (buf : List Nat) (le : Bool) (off size : Nat) : List Int :=
  (List.range (size / 4)).map (fun i =>
    let v := readUint32 buf le (off + 4 * i)
    if v < 2147483648 then (v : Int) else (v : Int) - 4294967296)

/-- Source `DataReader.readFloat32Array`: kept as the raw 32-bit patterns (the
claims never interpret float values). -/
def readFloat32ArrayV (buf : List Nat) (le : Bool) (off size : Nat) : List Int :=
  (List.range (size / 4)).map (fun i => (readUint32 buf le (off + 4 * i) : Int))

/-- Source `DataReader.readFloat64Array`: raw 64-bit patterns. -/
def readFloat64ArrayV (buf : List Nat) (le : Bool) (off size : Nat) : List Int :=
  (List.range (size / 8)).map (fun i =>
    (readUint32 buf le (off + 8 * i) : Int) +
      4294967296 * (readUint32 buf le (off + 8 * i + 4) : Int))

/-- The `AT` formatting loop: consecutive `u16` pairs rendered as
`"(GGGG,EEEE)"` uppercase-hex strings. -/
def atStrings : List Int → List String
  | g :: e :: rest =>
    ("(" ++ hex4 g.toNat ++ "," ++ hex4 e.toNat ++ ")") :: atStrings rest
  | _ => []

/-- JS `str.split("\\")` on the character list. -/
def splitOnBackslash : List Char → List (List Char)
  | [] => [[]]
  | x :: xs =>
    let r := splitOnBackslash xs
    if x = '\\' then [] :: r
    else match r with
      | [] => [[x]]
      | y :: ys => (x :: y) :: ys

/-- Models `data.split("\\")` of a read string. -/
def jsSplitBackslash (s : String) : List String :=
  (splitOnBackslash s.toList).map String.mk

/-- The BitsAllocated test of the `OW`/`OF`/`ox` branch:
`typeof this.dicomElements.x00280100 !== 'undefined' &&
 this.dicomElements.x00280100.value[0] === 8`. -/
def bitsAllocated8 (elems : ElemMap) : Bool :=
  match jsLookup elems "x00280100" with
  | some e =>
    match e.value with
    | .nums (z :: _) => z = 8
    | _ => false
  | none => false

/-- Source `DicomParser.prototype.readTag`. -/
def readTag (ctx : Ctx) (off : Nat) : RTag :=
  let group := readHex ctx.buf ctx.le off
  let element := readHex ctx.buf ctx.le (off + 2)
  ⟨group, element, getGroupElementKey group element, off + 4⟩

/-- The VR/VL part of `readDataElement` (source lines 717-762): returns
the VR, the recorded VL field, the effective numeric VL (zeroed when the
wire VL is the sentinel), and the offset where the value starts. -/
def readVRVL (ctx : Ctx) (tag : RTag) : String × VLField × Nat × Nat :=
  let p : String × Bool × Nat :=
    if isTagWithVR tag.group tag.element then
      if ctx.implicit then
        (match ctx.dict tag.group tag.element with
         | some v => v
         | none => "UN", true, tag.endOffset)
      else
        let vr := readString ctx.buf tag.endOffset 2
        if is32bitVLVR vr then (vr, true, tag.endOffset + 4)
        else (vr, false, tag.endOffset + 2)
    else ("UN", true, tag.endOffset)
  let vlRaw : Nat := if p.2.1 then readUint32 ctx.buf ctx.le p.2.2
                     else readUint16 ctx.buf ctx.le p.2.2
  let offData : Nat := if p.2.1 then p.2.2 + 4 else p.2.2 + 2
  if vlRaw = 4294967295 then (p.1, .ul, 0, offData)
  else (p.1, .num vlRaw, vlRaw, offData)

/-- The while-loop of `readPixelItemDataElement` reading fragment items
until the sequence delimitation item; the delimiter is consumed but not
pushed.  `read` is `this.readDataElement` at the current recursion budget. -/
def pixLoop (read : Nat → Option DataElement) : Nat → Nat → Option (List DataElement × Nat)
  | 0, _ => none
  | fuel + 1, off =>
    match read off with
    | none => none
    | some item =>
      if item.tag.name = "xFFFEE0DD" then some ([], item.endOffset)
      else
        match pixLoop read fuel item.endOffset with
        | none => none
        | some (l, e) => some (item :: l, e)

/-- Source `DicomParser.prototype.readPixelItemDataElement`: read the first item
(the Basic Offset Table), then loop fragments until the sequence
delimiter. -/
def readPixelItemDataElement (read : Nat → Option DataElement) (fuel off : Nat) :
    Option PixResult :=
  match read off with
  | none => none
  | some bot =>
    match pixLoop read fuel bot.endOffset with
    | none => none
    | some (l, e) => some ⟨l, e⟩

/-- The explicit-length child loop of `readItemDataElement`:
`while (offset < endOffset)` reading and storing child elements. -/
def childLoopExp (read : Nat → Option DataElement) :
    Nat → Nat → Nat → ElemMap → Option (ElemMap × Nat)
  | 0, off, endOff, acc => if off < endOff then none else some (acc, off)
  | fuel + 1, off, endOff, acc =>
    if off < endOff then
      match read off with
      | none => none
      | some it => childLoopExp read fuel it.endOffset endOff (jsInsert acc it.tag.name it)
    else some (acc, off)

/-- The undefined-length child loop of `readItemDataElement`: read until
the item delimitation item `xFFFEE00D`, which is consumed but not
stored. -/
def childLoopUL (read : Nat → Option DataElement) :
    Nat → Nat → ElemMap → Option (ElemMap × Nat)
  | 0, _, _ => none
  | fuel + 1, off, acc =>
    match read off with
    | none => none
    | some it =>
      if it.tag.name = "xFFFEE00D" then some (acc, it.endOffset)
      else childLoopUL read fuel it.endOffset (jsInsert acc it.tag.name it)

/-- Source `DicomParser.prototype.readItemDataElement`. -/
def readItemDataElement (read : Nat → Option DataElement) (fuel off : Nat) :
    Option ItemResult :=
  match read off with
  | none => none
  | some item =>
    if item.tag.name = "xFFFEE0DD" then some ⟨[], item.endOffset, true⟩
    else
      let itemData : ElemMap := jsInsert [] item.tag.name item
      match item.vl with
      | .num vl =>
        if vl ≠ 0 then
          match childLoopExp read fuel (item.endOffset - vl) item.endOffset itemData with
          | none => none
          | some (d, e) => some ⟨d, e, false⟩
        else some ⟨itemData, item.endOffset, false⟩
      | .ul =>
        match childLoopUL read fuel item.endOffset itemData with
        | none => none
        | some (d, e) => some ⟨d, e, false⟩

/-- The explicit-length `SQ` loop: `while (offset < sqEndOffset)` reading
items; every item's data is pushed (also a delimiter's empty map). -/
def sqLoopExp (readItem : Nat → Option ItemResult) :
    Nat → Nat → Nat → Option (List ElemMap × Nat)
  | 0, off, endOff => if off < endOff then none else some ([], off)
  | fuel + 1, off, endOff =>
    if off < endOff then
      match readItem off with
      | none => none
      | some r =>
        match sqLoopExp readItem fuel r.endOffset endOff with
        | none => none
        | some (l, e) => some (r.data :: l, e)
    else some ([], off)

/-- The undefined-length `SQ` loop: read items until one reports
`isSeqDelim`; the delimitation item is not stored. -/
def sqLoopUL (readItem : Nat → Option ItemResult) :
    Nat → Nat → Option (List ElemMap × Nat)
  | 0, _ => none
  | fuel + 1, off =>
    match readItem off with
    | none => none
    | some r =>
      if r.isSeqDelim then some ([], r.endOffset)
      else
        match sqLoopUL readItem fuel r.endOffset with
        | none => none
        | some (l, e) => some (r.data :: l, e)

/-- The value dispatch of `readDataElement` (source lines 764-884):
`rde` is `this.readDataElement` at the remaining recursion budget,
`vl` the effective numeric VL. -/
def readValue (ctx : Ctx) (rde : Nat → Option DataElement) (fuel : Nat)
    (name vr : String) (vlf : VLField) (vl off : Nat) : Option (DicomValue × Nat) :=
  if name = "x7FE00010" ∧ vlf = .ul then
    match readPixelItemDataElement rde fuel off with
    | none => none
    | some r => some (.frags r.data, r.endOffset)
  else if vr = "OW" ∨ vr = "OF" ∨ vr = "ox" then
    if bitsAllocated8 ctx.elems then
      some (.nums (readUint8ArrayV ctx.buf off vl), off + vl)
    else
      some (.nums (readUint16ArrayV ctx.buf ctx.le off vl), off + vl)
  else if vr = "OB" then some (.nums (readUint8ArrayV ctx.buf off vl), off + vl)
  else if vr = "US" then some (.nums (readUint16ArrayV ctx.buf ctx.le off vl), off + vl)
  else if vr = "UL" then some (.nums (readUint32ArrayV ctx.buf ctx.le off vl), off + vl)
  else if vr = "SS" then some (.nums (readInt16ArrayV ctx.buf ctx.le off vl), off + vl)
  else if vr = "SL" then some (.nums (readInt32ArrayV ctx.buf ctx.le off vl), off + vl)
  else if vr = "FL" then some (.nums (readFloat32ArrayV ctx.buf ctx.le off vl), off + vl)
  else if vr = "FD" then some (.nums (readFloat64ArrayV ctx.buf ctx.le off vl), off + vl)
  else if vr = "AT" then
    some (.strs (atStrings (readUint16ArrayV ctx.buf ctx.le off vl)), off + vl)
  else if vr = "UN" then some (.nums (readUint8ArrayV ctx.buf off vl), off + vl)
  else if vr = "SQ" then
    match vlf with
    | .num _ =>
      if vl ≠ 0 then
        match sqLoopExp (readItemDataElement rde fuel) fuel off (off + vl) with
        | none => none
        | some (l, e) => some (.items l, e)
      else some (.items [], off)
    | .ul =>
      match sqLoopUL (readItemDataElement rde fuel) fuel off with
      | none => none
      | some (l, e) => some (.items l, e)
  else some (.strs (jsSplitBackslash (readString ctx.buf off vl)), off + vl)

/-- Assembly of the returned element record `{tag, vr, vl, value,
endOffset}` from the value-dispatch result. -/
def mkElement (tag : RTag) (vr : String) (vlf : VLField) (p : DicomValue × Nat) : DataElement :=
  .mk tag vr vlf p.1 p.2

/-- Source `DicomParser.prototype.readDataElement`, fuel-indexed (the source
recurses unboundedly through sequence and item reads). -/
def readDataElement (ctx : Ctx) : Nat → Nat → Option DataElement
  | 0 => fun _ => none
  | fuel + 1 => fun off =>
    let tag := readTag ctx off
    let q := readVRVL ctx tag
    (readValue ctx (readDataElement ctx fuel) fuel tag.name q.1 q.2.1 q.2.2.1 q.2.2.2).map
      (mkElement tag q.1 q.2.1)

/-- Models `parseInt(x, 10)` on the first value component of the group-length
element: a number coerces to its decimal string and parses back; a string
parses its leading decimal digits (after optional whitespace and sign);
anything else (or no digits) is `NaN`, modeled as `none`. -/
def jsParseInt10 (s : String) : Option Int :=
  let l := s.toList.dropWhile isJsWhitespace
  let sign : Int := if l.head? = some '-' then -1 else 1
  let l := if l.head? = some '-' ∨ l.head? = some '+' then l.drop 1 else l
  let digits := l.takeWhile (fun c => c.isDigit)
  if digits = [] then none
  else some (sign * (digits.foldl (fun a c => a * 10 + (c.toNat - 48)) 0 : Nat))

/-- Models `parseInt(dataElement.value[0], 10)` (source line 924). -/
def metaLengthOf : DicomValue → Option Int
  | .nums (z :: _) => some z
  | .strs (s :: _) => jsParseInt10 s
  | _ => none

/-- The meta while-loop (source lines 927-935) runs while
`offset < metaEnd`; a `NaN` bound compares false. -/
def ltMetaEnd (off : Nat) (metaEnd : Option Int) : Bool :=
  match metaEnd with
  | some m => decide ((off : Int) < m)
  | none => false

/-- The meta while-loop body. -/
def metaLoop (dict : String → String → Option String) (buf : List Nat) :
    Nat → Nat → Option Int → ElemMap → Option (ElemMap × Nat)
  | 0, off, metaEnd, elems =>
    if ltMetaEnd off metaEnd then none
    else some (elems, off)
  | fuel + 1, off, metaEnd, elems =>
    if ltMetaEnd off metaEnd then
      match readDataElement ⟨buf, true, false, dict, elems⟩ fuel off with
      | none => none
      | some e => metaLoop dict buf fuel e.endOffset metaEnd (jsInsert elems e.tag.name e)
    else some (elems, off)

/-- The data-set while-loop (source lines 989-997): read with the
configured reader while `offset < buffer.byteLength`. -/
def dataLoop (dict : String → String → Option String) (buf : List Nat) (cfg : TSConfig) :
    Nat → Nat → ElemMap → Option (ElemMap × Nat)
  | 0, off, elems => if off < buf.length then none else some (elems, off)
  | fuel + 1, off, elems =>
    if off < buf.length then
      match readDataElement ⟨buf, cfg.littleEndian, cfg.implicit, dict, elems⟩ fuel off with
      | none => none
      | some e => dataLoop dict buf cfg fuel e.endOffset (jsInsert elems e.tag.name e)
    else some (elems, off)

/-- The transfer-syntax step of `parse` (source lines 937-986):
`cleanString(this.dicomElements.x00020010.value[0])` then the dispatch.
A non-string `value[0]` crashes inside `cleanString`/`match`
(`TypeError`); an absent component (`undefined`) crashes when the first
regex test runs. -/
def parseTSDispatch (v : DicomValue) : Except String TSConfig :=
  match v with
  | .strs (s :: _) => classifyTS (cleanString s)
  | _ => .error "TypeError"

/-- Models the `ToUint16` coercion applied by `Uint16Array.prototype.set` to each
entry of an array-like: numbers wrap modulo 2^16, strings go through
`ToNumber` (only plain decimal strings yield a number; otherwise `NaN`,
i.e. 0), objects give `NaN`, i.e. 0. -/
def toUint16List : DicomValue → List Int
  | .nums l => l.map (fun z => z % 65536)
  | .strs l => l.map (fun s =>
      if s.toList ≠ [] ∧ s.toList.all Char.isDigit then
        ((s.toList.foldl (fun a c => a * 10 + (c.toNat - 48)) 0 : Nat) : Int) % 65536
      else 0)
  | .items l => l.map (fun _ => 0)
  | .frags l => l.map (fun _ => 0)

/-- The length JS reads off an element's `value`. -/
def jsValueLen : DicomValue → Nat
  | .nums l => l.length
  | .strs l => l.length
  | .items l => l.length
  | .frags l => l.length

/-- The pixel-buffer assembly of `parse` (source lines 999-1018): a
defined-VL pixel element's value is taken as-is; an undefined-VL one has
its item values concatenated into a fresh `Uint16Array`.  When the value
list is non-empty but its entries are not elements, `items[i].value` is
`undefined` and reading `.length` off it throws. -/
def computePixelBuffer (elems : ElemMap) : Except String DicomValue :=
  match jsLookup elems "x7FE00010" with
  | none => .ok (.nums [])
  | some e =>
    match e.vl with
    | .num _ => .ok e.value
    | .ul =>
      match e.value with
      | .frags items =>
        .ok (.nums (items.foldl (fun acc it => acc ++ toUint16List it.value) []))
      | .nums [] => .ok (.nums [])
      | .strs [] => .ok (.nums [])
      | .items [] => .ok (.nums [])
      | _ => .error "TypeError"

/-- Everything parsed: the element collection and the assembled pixel
buffer (initially the empty JS array). -/
structure ParseResult where
  elements : ElemMap
  pixelBuffer : DicomValue

/-- Source `DicomParser.prototype.parse` after the magic word has been accepted:
File Meta Information group from offset `off0` (fixed explicit little
endian), transfer-syntax dispatch, data set, pixel buffer.  `.error`
carries the thrown message; fuel exhaustion is reported as
`"out of fuel"`. -/
def parseFromMeta (dict : String → String → Option String) (buf : List Nat)
    (fuel off0 : Nat) : Except String ParseResult :=
  match readDataElement ⟨buf, true, false, dict, []⟩ fuel off0 with
  | none => .error "out of fuel"
  | some fmigl =>
    let elems := jsInsert [] fmigl.tag.name fmigl
    let metaEnd := (metaLengthOf fmigl.value).map (fun m => (fmigl.endOffset : Int) + m)
    match metaLoop dict buf fuel fmigl.endOffset metaEnd elems with
    | none => .error "out of fuel"
    | some (elems1, off1) =>
      match jsLookup elems1 "x00020010" with
      | none => .error "TypeError"
      | some tsElem =>
        match parseTSDispatch tsElem.value with
        | .error msg => .error msg
        | .ok cfg =>
          match dataLoop dict buf cfg fuel off1 elems1 with
          | none => .error "out of fuel"
          | some (elems2, _) =>
            match computePixelBuffer elems2 with
            | .error msg => .error msg
            | .ok pix => .ok ⟨elems2, pix⟩

/-- The message thrown on a bad magic word. -/
def notDicomMsg : String := "Not a valid DICOM file (no magic DICM word found)"

/-- Source `DicomParser.prototype.parse`: check the magic word at offset 128,
then parse from offset 132. -/
def parse (dict : String → String → Option String) (buf : List Nat) (fuel : Nat) :
    Except String ParseResult :=
  if readString buf 128 4 ≠ "DICM" then .error notDicomMsg
  else parseFromMeta dict buf fuel 132

/-- What `DicomElementsWrapper.getFromKey` returns: `null`, an unwrapped
single component, or the whole value. -/
inductive KeyResult where
  | null
  | scalarNum (z : Int)
  | scalarStr (s : String)
  | scalarItem (m : ElemMap)
  | scalarElem (e : DataElement)
  | whole (v : DicomValue)

/-- Models `value[0]` unwrapping for a single-component value. -/
def scalarOf : DicomValue → KeyResult
  | .nums (z :: _) => .scalarNum z
  | .strs (s :: _) => .scalarStr s
  | .items (m :: _) => .scalarItem m
  | .frags (e :: _) => .scalarElem e
  | _ => .null

/-- Source `DicomElementsWrapper.getFromKey(groupElementKey, asArray)`. -/
def getFromKey (m : ElemMap) (k : String) (asArray : Bool) : KeyResult :=
  match jsLookup m k with
  | none => .null
  | some d =>
    if jsValueLen d.value = 1 ∧ asArray = false then scalarOf d.value
    else .whole d.value

/-- Source `DicomElementsWrapper.prototype.getFromGroupElement` (the `asArray`
argument of the inner call is `undefined`, defaulting to `false`). -/
def getFromGroupElement (m : ElemMap) (group element : String) : KeyResult :=
  getFromKey m (getGroupElementKey group element) false

/-- Source `DataReader.flipArrayEndianness` on the underlying byte run: the
nested loops swap `u8[k]`/`u8[j]` pairwise within each
`BYTES_PER_ELEMENT`-sized block, i.e. they reverse every block. -/
def flipArrayEndianness (bpel : Nat) (bytes : List Nat) : List Nat :=
  if bpel = 0 then bytes
  else if bytes = [] then []
  else (bytes.take bpel).reverse ++ flipArrayEndianness bpel (bytes.drop bpel)
termination_by bytes.length
decreasing_by
  rename_i h0 hne
  have : 0 < bytes.length := List.length_pos.mpr hne
  have : 0 < bpel := Nat.pos_of_ne_zero h0
  simp [List.length_drop]
  omega

/-! ### Definitions supporting the claim statements and their concrete instances -/

/-- The set of transfer-syntax UID strings the dispatch of `parse` accepts:
the seven exact UIDs, plus every string the JPEG-2000 regex (with its
unescaped dots acting as wildcards) matches that none of the rejecting
regexes matches first. -/
def acceptedTS (s : String) : Prop :=
  s = "1.2.840.10008.1.2" ∨ s = "1.2.840.10008.1.2.1" ∨ s = "1.2.840.10008.1.2.2" ∨
  s = "1.2.840.10008.1.2.4.50" ∨ s = "1.2.840.10008.1.2.4.51" ∨
  s = "1.2.840.10008.1.2.4.57" ∨ s = "1.2.840.10008.1.2.4.70" ∨
  (isJpeg2000TS s = true ∧ isJpegNonSupportedTS s = false ∧ isJpeglsTS s = false)

/-- An element map holding one ordinary element under its canonical key,
used to exercise the accessor pair. -/
def c9map : ElemMap :=
  [("x00280102", .mk ⟨"0x0028", "0x0102", "x00280102", 8⟩ "US" (.num 2) (.nums [3]) 10)]

/-- A 132-byte buffer whose four bytes at offset 128 are not `"DICM"`. -/
def c8buf : List Nat := List.replicate 132 0

/-- The VRs whose value dispatch does not go through the string fallback
(ordered chain of `readDataElement`); the complement is the string class
whose value is the backslash split of the read text. -/
def stringClassVR (vr : String) : Bool :=
  !(vr = "OW" || vr = "OF" || vr = "ox" || vr = "OB" || vr = "US" || vr = "UL" ||
    vr = "SS" || vr = "SL" || vr = "FL" || vr = "FD" || vr = "AT" || vr = "UN" || vr = "SQ")

/-- The effective numeric VL recorded on an element: the wire count, or 0
for the undefined sentinel. -/
def effectiveVL : VLField → Nat
  | .num n => n
  | .ul => 0

/-- The prefix-size classification of the claim: 8 bytes for the no-VR
item and delimiter tags and for implicit encoding, 12 for explicit
32-bit-VL VRs, 8 for explicit 16-bit-VL VRs. -/
def prefixSizeOf (implicit : Bool) (tag : RTag) (vr : String) : Nat :=
  if isTagWithVR tag.group tag.element then
    if implicit then 8
    else if is32bitVLVR vr then 12 else 8
  else 8

/-- Consecutive `readItemDataElement` results: starting at the first
offset, each read begins where the previous one ended, finishing at the
final offset. -/
inductive ItemReads (readItem : Nat → Option ItemResult) : Nat → List ItemResult → Nat → Prop where
  | nil (off : Nat) : ItemReads readItem off [] off
  | cons (off : Nat) (r : ItemResult) (rs : List ItemResult) (e : Nat) :
      readItem off = some r → ItemReads readItem r.endOffset rs e →
      ItemReads readItem off (r :: rs) e

/-- Context for the C4 witness: a 10-byte buffer holding one explicit
little-endian `US` element `(0028,0010) US vl=2`. -/
def c4ctx : Ctx :=
  ⟨[0x28, 0x00, 0x10, 0x00, 85, 83, 0x02, 0x00, 0x00, 0x02], true, false, fun _ _ => none, []⟩

/-- The element the C4 witness decodes. -/
def c4elt : DataElement :=
  (readDataElement c4ctx 5 0).getD (.mk ⟨"", "", "", 0⟩ "" (.num 0) (.nums []) 0)

/-- Context for the C5 witness: a buffer holding just a sequence
delimitation item `FFFE,E0DD` with VL 0. -/
def c5ctx : Ctx :=
  ⟨[0xFE, 0xFF, 0xDD, 0xE0, 0, 0, 0, 0], true, false, fun _ _ => none, []⟩

/-- Context for the C1 instance: an encapsulated pixel-data item stream at
offset 0 — a Basic Offset Table item with VL 0, two fragment items with
two bytes of payload each, and the sequence delimiter. -/
def c1ctx : Ctx :=
  ⟨[0xFE, 0xFF, 0x00, 0xE0, 0, 0, 0, 0,
    0xFE, 0xFF, 0x00, 0xE0, 2, 0, 0, 0, 1, 2,
    0xFE, 0xFF, 0x00, 0xE0, 2, 0, 0, 0, 3, 4,
    0xFE, 0xFF, 0xDD, 0xE0, 0, 0, 0, 0], true, false, fun _ _ => none, []⟩

/-- The pixel-item result the C1 witness decodes. -/
def c1res : PixResult :=
  (readPixelItemDataElement (readDataElement c1ctx 10) 10 0).getD ⟨[], 0⟩

/-- A placeholder element for `Option.getD` defaults. -/
def dummyElement : DataElement := .mk ⟨"", "", "", 0⟩ "" (.num 0) (.nums []) 0

/-- The Basic Offset Table element read first by the C1 witness. -/
def c1bot : DataElement := (readDataElement c1ctx 10 0).getD dummyElement

/-- A fragment element whose value is a numeric array of 16-bit-range
entries (`Uint16Array.set` copies such entries unchanged). -/
def fragIsBytes (f : DataElement) : Bool :=
  match f.value with
  | .nums ns => ns.all (fun z => decide (0 ≤ z) && decide (z < 65536))
  | _ => false

/-- The numeric value array of a fragment element. -/
def fragNums (f : DataElement) : List Int :=
  match f.value with
  | .nums ns => ns
  | _ => []

/-- Dictionary injected for the concrete parses (never consulted on
explicit-VR streams). -/
def c2dict : String → String → Option String := fun _ _ => none

/-- A complete DICOM stream with encapsulated pixel data: 128-byte
preamble, `"DICM"`, the File Meta group (group length 30, Transfer Syntax
UID JPEG Baseline 1.2.840.10008.1.2.4.50), and an undefined-length
`(7FE0,0010) OB` element holding a zero-length Basic Offset Table item,
two 2-byte fragments, and the sequence delimiter. -/
def c2buf : List Nat :=
  List.replicate 128 0 ++ [68, 73, 67, 77] ++
  [0x02, 0x00, 0x00, 0x00, 85, 76, 0x04, 0x00, 30, 0, 0, 0] ++
  [0x02, 0x00, 0x10, 0x00, 85, 73, 22, 0] ++
  [49, 46, 50, 46, 56, 52, 48, 46, 49, 48, 48, 48, 56, 46, 49, 46, 50, 46, 52, 46, 53, 48] ++
  [0xE0, 0x7F, 0x10, 0x00, 79, 66, 0, 0, 0xFF, 0xFF, 0xFF, 0xFF] ++
  [0xFE, 0xFF, 0x00, 0xE0, 0, 0, 0, 0] ++
  [0xFE, 0xFF, 0x00, 0xE0, 2, 0, 0, 0, 1, 2] ++
  [0xFE, 0xFF, 0x00, 0xE0, 2, 0, 0, 0, 3, 4] ++
  [0xFE, 0xFF, 0xDD, 0xE0, 0, 0, 0, 0]

/-- The parse result of the C2 stream. -/
def c2res : ParseResult := (parse c2dict c2buf 40).toOption.getD ⟨[], .nums []⟩

/-- The pixel-data element stored by the C2 parse. -/
def c2e : DataElement := (jsLookup c2res.elements "x7FE00010").getD dummyElement

/-- The fragment list stored on the C2 pixel-data element. -/
def c2frags : List DataElement :=
  match c2e.value with
  | .frags l => l
  | _ => []

/-! ### Theorems -/

theorem flipArrayEndianness_nil (bpel : Nat) : flipArrayEndianness bpel [] = [] := by
  unfold flipArrayEndianness
  simp

theorem flipArrayEndianness_step (bpel : Nat) (h0 : ¬ bpel = 0) (bytes : List Nat)
    (hne : ¬ bytes = []) :
    flipArrayEndianness bpel bytes =
      (bytes.take bpel).reverse ++ flipArrayEndianness bpel (bytes.drop bpel) := by
  conv_lhs => rw [flipArrayEndianness]
  simp [h0, hne]

theorem flipArrayEndianness_length (bpel : Nat) :
    ∀ bytes : List Nat, (flipArrayEndianness bpel bytes).length = bytes.length := by
  by_cases h0 : bpel = 0
  · intro bytes
    unfold flipArrayEndianness
    simp [h0]
  · suffices h : ∀ (n : Nat) (bytes : List Nat), bytes.length = n →
        (flipArrayEndianness bpel bytes).length = bytes.length by
      intro bytes
      exact h bytes.length bytes rfl
    intro n
    induction n using Nat.strong_induction_on with
    | _ n ih =>
      intro bytes hn
      by_cases hne : bytes = []
      · subst hne
        simp [flipArrayEndianness_nil]
      · rw [flipArrayEndianness_step bpel h0 bytes hne]
        have hlen : 0 < bytes.length := List.length_pos.mpr hne
        have hb : 0 < bpel := Nat.pos_of_ne_zero h0
        have hdl : (bytes.drop bpel).length < n := by
          rw [List.length_drop]
          omega
        have := ih (bytes.drop bpel).length hdl (bytes.drop bpel) rfl
        simp [this, List.length_take, List.length_drop]
        omega

theorem flipArrayEndianness_chunklen (bpel : Nat) (h0 : ¬ bpel = 0) (bytes : List Nat)
    (hne : ¬ bytes = []) (hd : bpel ∣ bytes.length) : (bytes.take bpel).length = bpel := by
  have hlen : 0 < bytes.length := List.length_pos.mpr hne
  have hb : bpel ≤ bytes.length := Nat.le_of_dvd hlen hd
  simp [List.length_take]
  omega

theorem flipArrayEndianness_invol (bpel : Nat) :
    ∀ bytes : List Nat, bpel ∣ bytes.length →
      flipArrayEndianness bpel (flipArrayEndianness bpel bytes) = bytes := by
  by_cases h0 : bpel = 0
  · intro bytes _
    unfold flipArrayEndianness
    simp [h0]
    unfold flipArrayEndianness
    simp [h0]
  · suffices h : ∀ (n : Nat) (bytes : List Nat), bytes.length = n → bpel ∣ bytes.length →
        flipArrayEndianness bpel (flipArrayEndianness bpel bytes) = bytes by
      intro bytes
      exact h bytes.length bytes rfl
    intro n
    induction n using Nat.strong_induction_on with
    | _ n ih =>
      intro bytes hn hd
      by_cases hne : bytes = []
      · subst hne
        simp [flipArrayEndianness_nil]
      · have hck := flipArrayEndianness_chunklen bpel h0 bytes hne hd
        have hlen : 0 < bytes.length := List.length_pos.mpr hne
        have hble : bpel ≤ bytes.length := Nat.le_of_dvd hlen hd
        rw [flipArrayEndianness_step bpel h0 bytes hne]
        have hne2 : ¬ ((bytes.take bpel).reverse ++ flipArrayEndianness bpel (bytes.drop bpel)) = [] := by
          intro hcon
          have hql : ((bytes.take bpel).reverse ++ flipArrayEndianness bpel (bytes.drop bpel)).length = 0 := by
            rw [hcon]
            rfl
          rw [List.length_append, List.length_reverse, hck] at hql
          have hb : 0 < bpel := Nat.pos_of_ne_zero h0
          omega
        rw [flipArrayEndianness_step bpel h0 _ hne2]
        have htake : ((bytes.take bpel).reverse ++ flipArrayEndianness bpel (bytes.drop bpel)).take bpel =
            (bytes.take bpel).reverse := by
          rw [List.take_append_of_le_length]
          · rw [List.take_of_length_le]
            simp [hck]
          · simp [hck]
        have hdrop : ((bytes.take bpel).reverse ++ flipArrayEndianness bpel (bytes.drop bpel)).drop bpel =
            flipArrayEndianness bpel (bytes.drop bpel) := by
          rw [List.drop_append_of_le_length]
          · rw [List.drop_of_length_le] <;> simp [hck]
          · simp [hck]
        rw [htake, hdrop, List.reverse_reverse]
        have hdl : (bytes.drop bpel).length < n := by
          rw [List.length_drop]
          have hb : 0 < bpel := Nat.pos_of_ne_zero h0
          omega
        have hdd : bpel ∣ (bytes.drop bpel).length := by
          rw [List.length_drop]
          exact (Nat.dvd_sub' hd dvd_rfl)
        rw [ih (bytes.drop bpel).length hdl (bytes.drop bpel) rfl hdd]
        exact List.take_append_drop bpel bytes

theorem flipArrayEndianness_chunk (bpel : Nat) (h0 : ¬ bpel = 0) :
    ∀ (i : Nat) (bytes : List Nat), bpel ∣ bytes.length →
      ((flipArrayEndianness bpel bytes).drop (bpel * i)).take bpel =
        ((bytes.drop (bpel * i)).take bpel).reverse := by
  intro i
  induction i with
  | zero =>
    intro bytes hd
    by_cases hne : bytes = []
    · subst hne
      simp [flipArrayEndianness_nil]
    · have hck := flipArrayEndianness_chunklen bpel h0 bytes hne hd
      rw [flipArrayEndianness_step bpel h0 bytes hne]
      rw [Nat.mul_zero, List.drop_zero, List.drop_zero]
      rw [List.take_append_of_le_length]
      · rw [List.take_of_length_le]
        simp [hck]
      · simp [hck]
  | succ k ih =>
    intro bytes hd
    by_cases hne : bytes = []
    · subst hne
      simp [flipArrayEndianness_nil]
    · have hck := flipArrayEndianness_chunklen bpel h0 bytes hne hd
      have hlen : 0 < bytes.length := List.length_pos.mpr hne
      have hble : bpel ≤ bytes.length := Nat.le_of_dvd hlen hd
      rw [flipArrayEndianness_step bpel h0 bytes hne]
      have hmul : bpel * (k + 1) = bpel + bpel * k := by ring
      rw [hmul]
      have hsplit : ((bytes.take bpel).reverse ++ flipArrayEndianness bpel (bytes.drop bpel)).drop (bpel + bpel * k) =
          (flipArrayEndianness bpel (bytes.drop bpel)).drop (bpel * k) := by
        have h1 : bpel + bpel * k = ((bytes.take bpel).reverse).length + bpel * k := by
          simp [hck]
        rw [h1, List.drop_append]
      rw [hsplit]
      have hdd : bpel ∣ (bytes.drop bpel).length := by
        rw [List.length_drop]
        exact (Nat.dvd_sub' hd dvd_rfl)
      rw [ih (bytes.drop bpel) hdd]
      congr 2
      rw [List.drop_drop]

/-- C10: `flipArrayEndianness` is an involution on a typed array's byte
run, and one application reverses the bytes of each
`BYTES_PER_ELEMENT`-sized element while keeping element order and total
length (`bpel` the element width, always positive and dividing the byte
length for a typed array). -/
theorem C10_flipArrayEndianness_involution (bpel : Nat) (bytes : List Nat)
    (h0 : 0 < bpel) (hd : bpel ∣ bytes.length) :
    flipArrayEndianness bpel (flipArrayEndianness bpel bytes) = bytes ∧
    (flipArrayEndianness bpel bytes).length = bytes.length ∧
    ∀ i : Nat, ((flipArrayEndianness bpel bytes).drop (bpel * i)).take bpel =
      ((bytes.drop (bpel * i)).take bpel).reverse := by
  refine ⟨flipArrayEndianness_invol bpel bytes hd, flipArrayEndianness_length bpel bytes, ?_⟩
  intro i
  exact flipArrayEndianness_chunk bpel (Nat.pos_iff_ne_zero.mp h0) i bytes hd

/-- C10 witness: the involution and element-wise byte reversal on the
4-byte run `[1, 2, 3, 4]` viewed as a `Uint16Array` (element width 2). -/
theorem C10_witness :
    flipArrayEndianness 2 (flipArrayEndianness 2 [1, 2, 3, 4]) = [1, 2, 3, 4] ∧
    (flipArrayEndianness 2 [1, 2, 3, 4]).length = 4 ∧
    ((flipArrayEndianness 2 [1, 2, 3, 4]).drop 0).take 2 = [2, 1] := by
  have h := C10_flipArrayEndianness_involution 2 [1, 2, 3, 4] (by decide) (by decide)
  refine ⟨h.1, h.2.1, ?_⟩
  have h2 := h.2.2 0
  simpa using h2

/-- C6 counterexample: the claim says a trailing zero-width space U+200B
is removed after trimming, but `cleanString` leaves `"ab​"` intact
(it compares against `String.fromCharCode("u200B")`, which is U+0000, not
U+200B). -/
theorem C6_cex :
    cleanString "ab​" = "ab​" ∧ cleanString "ab​" ≠ "ab" := by
  constructor
  · rfl
  · decide

/-- C6 (amended): `cleanString` trims JS whitespace and then removes one
trailing U+0000 character (the actual value of
`String.fromCharCode("u200B")`); a trailing U+200B survives.  The
transfer-syntax UID is classified only after this cleaning
(`parseTSDispatch` applies `classifyTS` to `cleanString` of the raw first
value component). -/
theorem C6_cleanString :
    (∀ s : String,
      cleanString s =
        (if (jsTrim s).toList.getLast? = some (Char.ofNat 0) then
          String.mk (jsTrim s).toList.dropLast
        else jsTrim s) ∧
      ((jsTrim s).toList.getLast? = some (Char.ofNat 0x200B) → cleanString s = jsTrim s)) ∧
    ∀ (v : String) (rest : List String),
      parseTSDispatch (.strs (v :: rest)) = classifyTS (cleanString v) := by
  refine ⟨fun s => ⟨?_, ?_⟩, fun v rest => rfl⟩
  · by_cases hs : s = ""
    · subst hs
      rfl
    · simp only [cleanString, hs, if_false, fromCharCodeU200B]
  · intro hz
    by_cases hs : s = ""
    · subst hs
      simp [jsTrim] at hz
    · simp only [cleanString, hs, if_false, fromCharCodeU200B, hz]
      have : (Char.ofNat 0x200B) ≠ (Char.ofNat 0) := by decide
      simp [this]

/-- C6 witness: the amended behavior at a concrete input
`" a\u0000"` (trailing NUL after a trimmed space) and the dispatch
instance. -/
theorem C6_witness :
    cleanString " a\u0000" =
      (if (jsTrim " a\u0000").toList.getLast? = some (Char.ofNat 0) then
        String.mk (jsTrim " a\u0000").toList.dropLast
      else jsTrim " a\u0000") ∧
    parseTSDispatch (.strs ["1.2.840.10008.1.2.1"]) =
      classifyTS (cleanString "1.2.840.10008.1.2.1") := by
  exact ⟨(C6_cleanString.1 " a\u0000").1, C6_cleanString.2 "1.2.840.10008.1.2.1" []⟩

/-- C9 counterexample: for the present key `"x00280102"`,
`splitGroupElementKey` yields the bare hex pair `("0028", "0102")`, and
feeding that pair to `getFromGroupElement` looks up the mangled key
`"x2802"` and returns `null`, while `getFromKey` returns the stored
value. -/
theorem C9_cex :
    splitGroupElementKey "x00280102" = ("0028", "0102") ∧
    getFromKey c9map "x00280102" false = .scalarNum 3 ∧
    getFromGroupElement c9map "0028" "0102" = .null ∧
    getFromKey c9map "x00280102" false ≠
      getFromGroupElement c9map (splitGroupElementKey "x00280102").1
        (splitGroupElementKey "x00280102").2 := by
  refine ⟨rfl, rfl, rfl, ?_⟩
  intro hcon
  have h1 : getFromKey c9map "x00280102" false = KeyResult.scalarNum 3 := rfl
  have h2 : getFromGroupElement c9map (splitGroupElementKey "x00280102").1
      (splitGroupElementKey "x00280102").2 = KeyResult.null := rfl
  rw [h1, h2] at hcon
  exact KeyResult.noConfusion hcon

/-- C9 (amended): the lookup round trip holds for the `"0x"`-prefixed
4-hex-digit group/element forms (the shape `readTag` produces):
for a key `"x" ++ G ++ E` with `G`, `E` of length 4,
`getFromKey` agrees with `getFromGroupElement ("0x" ++ G) ("0x" ++ E)`.
The raw outputs of `splitGroupElementKey` lack the `"0x"` prefix that
`getGroupElementKey` strips again, which is what the counterexample
exhibits. -/
theorem C9_getFromKey_roundtrip (m : ElemMap) (G E : String)
    (hG : G.length = 4) (hE : E.length = 4) :
    getFromKey m ("x" ++ G ++ E) false =
      getFromGroupElement m ("0x" ++ G) ("0x" ++ E) := by
  unfold getFromGroupElement
  have hkey : getGroupElementKey ("0x" ++ G) ("0x" ++ E) = "x" ++ G ++ E := by
    unfold getGroupElementKey jsSubstr
    have hG4 : G.toList.length = 4 := hG
    have hE4 : E.toList.length = 4 := hE
    have hgl : ("0x" ++ G).toList = '0' :: 'x' :: G.toList := by
      cases G
      rfl
    have hel : ("0x" ++ E).toList = '0' :: 'x' :: E.toList := by
      cases E
      rfl
    rw [hgl, hel]
    simp only [List.drop_succ_cons, List.drop_zero]
    rw [List.take_of_length_le (by omega), List.take_of_length_le (by omega)]
    cases G
    cases E
    rfl
  rw [hkey]

/-- C9 witness: the round trip at the concrete key `"x00280102"` in the
concrete map. -/
theorem C9_witness :
    getFromKey c9map ("x" ++ "0028" ++ "0102") false =
      getFromGroupElement c9map ("0x" ++ "0028") ("0x" ++ "0102") :=
  C9_getFromKey_roundtrip c9map "0028" "0102" rfl rfl

/-- C8: on a buffer long enough to hold the preamble and magic word,
`parse` fails with the not-a-DICOM error exactly when the four bytes at
offset 128 do not decode to `"DICM"`, before any element is decoded; when
they do, parsing continues with the File Meta Information at offset 132
(`parseFromMeta`, whose first action is `readDataElement` at the given
offset). -/
theorem C8_parse_magic (dict : String → String → Option String) (buf : List Nat)
    (fuel : Nat) (hlen : 132 ≤ buf.length) :
    (readString buf 128 4 ≠ "DICM" → parse dict buf fuel = .error notDicomMsg) ∧
    (readString buf 128 4 = "DICM" → parse dict buf fuel = parseFromMeta dict buf fuel 132) := by
  constructor
  · intro hm
    simp [parse, hm]
  · intro hm
    simp [parse, hm]

set_option maxRecDepth 40000 in
/-- C8 witness: a 132-byte all-zero buffer fails with the NotDicom
message. -/
theorem C8_witness : parse (fun _ _ => none) c8buf 5 = .error notDicomMsg := by
  have h := C8_parse_magic (fun _ _ => none) c8buf 5 (by decide)
  exact h.1 (by decide)

/-- C3 counterexample: the claim says every string other than the listed
supported UIDs is rejected, but the unescaped dots of the source's regex
literals act as wildcards: the unrecognized string
`"1a2.840.10008.1.2.4.9"` is accepted as JPEG 2000. -/
theorem C3_cex :
    classifyTS "1a2.840.10008.1.2.4.9" = .ok ⟨false, true⟩ ∧
    "1a2.840.10008.1.2.4.9" ≠ "1.2.840.10008.1.2.4.90" ∧
    "1a2.840.10008.1.2.4.9" ≠ "1.2.840.10008.1.2.4.91" := by
  refine ⟨rfl, by decide, by decide⟩

set_option maxHeartbeats 1000000 in
/-- C3 (amended): the dispatch accepts exactly the seven explicit UIDs
(Implicit LE, Explicit LE, Explicit BE, the four supported JPEG UIDs)
together with every string matched by the dot-wildcard JPEG-2000 pattern
that the retired-JPEG and JPEG-LS patterns do not match first; everything
else (Deflated, retired JPEG, JPEG-LS, MPEG2, RLE, unknowns) is rejected
with a thrown error. -/
theorem C3_classifyTS_accepts (s : String) :
    (∃ cfg, classifyTS s = .ok cfg) ↔ acceptedTS s := by
  unfold classifyTS acceptedTS
  by_cases h1 : s = "1.2.840.10008.1.2.1"
  · rw [if_pos h1]
    exact ⟨fun _ => Or.inr (Or.inl h1), fun _ => ⟨_, rfl⟩⟩
  rw [if_neg h1]
  by_cases h2 : s = "1.2.840.10008.1.2"
  · rw [if_pos h2]
    exact ⟨fun _ => Or.inl h2, fun _ => ⟨_, rfl⟩⟩
  rw [if_neg h2]
  by_cases h3 : s = "1.2.840.10008.1.2.1.99"
  · rw [if_pos h3]
    subst h3
    constructor
    · rintro ⟨cfg, hcfg⟩
      cases hcfg
    · intro hr
      exfalso
      revert hr
      decide
  rw [if_neg h3]
  by_cases h4 : s = "1.2.840.10008.1.2.2"
  · rw [if_pos h4]
    exact ⟨fun _ => Or.inr (Or.inr (Or.inl h4)), fun _ => ⟨_, rfl⟩⟩
  rw [if_neg h4]
  by_cases h5 : isJpegBaselineTS s = true
  · rw [if_pos h5]
    refine ⟨fun _ => ?_, fun _ => ⟨_, rfl⟩⟩
    have hb : s = "1.2.840.10008.1.2.4.50" ∨ s = "1.2.840.10008.1.2.4.51" := by
      simpa [isJpegBaselineTS, Bool.or_eq_true, decide_eq_true_eq] using h5
    rcases hb with hb | hb
    · exact Or.inr (Or.inr (Or.inr (Or.inl hb)))
    · exact Or.inr (Or.inr (Or.inr (Or.inr (Or.inl hb))))
  rw [if_neg h5]
  have h5a : ¬ s = "1.2.840.10008.1.2.4.50" := by
    intro hcon
    exact h5 (by rw [hcon]; decide)
  have h5b : ¬ s = "1.2.840.10008.1.2.4.51" := by
    intro hcon
    exact h5 (by rw [hcon]; decide)
  by_cases h6 : isJpegLosslessTS s = true
  · rw [if_pos h6]
    refine ⟨fun _ => ?_, fun _ => ⟨_, rfl⟩⟩
    have hb : s = "1.2.840.10008.1.2.4.57" ∨ s = "1.2.840.10008.1.2.4.70" := by
      simpa [isJpegLosslessTS, Bool.or_eq_true, decide_eq_true_eq] using h6
    rcases hb with hb | hb
    · exact Or.inr (Or.inr (Or.inr (Or.inr (Or.inr (Or.inl hb)))))
    · exact Or.inr (Or.inr (Or.inr (Or.inr (Or.inr (Or.inr (Or.inl hb))))))
  rw [if_neg h6]
  have h6a : ¬ s = "1.2.840.10008.1.2.4.57" := by
    intro hcon
    exact h6 (by rw [hcon]; decide)
  have h6b : ¬ s = "1.2.840.10008.1.2.4.70" := by
    intro hcon
    exact h6 (by rw [hcon]; decide)
  by_cases h7 : isJpegNonSupportedTS s = true
  · rw [if_pos h7]
    constructor
    · rintro ⟨cfg, hcfg⟩
      cases hcfg
    · rintro (hr | hr | hr | hr | hr | hr | hr | ⟨hj9, hj5, hj8⟩)
      · exact (h2 hr).elim
      · exact (h1 hr).elim
      · exact (h4 hr).elim
      · exact (h5a hr).elim
      · exact (h5b hr).elim
      · exact (h6a hr).elim
      · exact (h6b hr).elim
      · rw [h7] at hj5
        cases hj5
  rw [if_neg h7]
  by_cases h8 : isJpeglsTS s = true
  · rw [if_pos h8]
    constructor
    · rintro ⟨cfg, hcfg⟩
      cases hcfg
    · rintro (hr | hr | hr | hr | hr | hr | hr | ⟨hj9, hj5, hj8⟩)
      · exact (h2 hr).elim
      · exact (h1 hr).elim
      · exact (h4 hr).elim
      · exact (h5a hr).elim
      · exact (h5b hr).elim
      · exact (h6a hr).elim
      · exact (h6b hr).elim
      · rw [h8] at hj8
        cases hj8
  rw [if_neg h8]
  by_cases h9 : isJpeg2000TS s = true
  · rw [if_pos h9]
    refine ⟨fun _ => ?_, fun _ => ⟨_, rfl⟩⟩
    have h7f : isJpegNonSupportedTS s = false := by simpa using h7
    have h8f : isJpeglsTS s = false := by simpa using h8
    exact Or.inr (Or.inr (Or.inr (Or.inr (Or.inr (Or.inr (Or.inr ⟨h9, h7f, h8f⟩))))))
  rw [if_neg h9]
  by_cases h10 : s = "1.2.840.10008.1.2.4.100"
  · rw [if_pos h10]
    constructor
    · rintro ⟨cfg, hcfg⟩
      cases hcfg
    · rintro (hr | hr | hr | hr | hr | hr | hr | ⟨hj9, hj5, hj8⟩)
      · exact (h2 hr).elim
      · exact (h1 hr).elim
      · exact (h4 hr).elim
      · exact (h5a hr).elim
      · exact (h5b hr).elim
      · exact (h6a hr).elim
      · exact (h6b hr).elim
      · exact (h9 hj9).elim
  rw [if_neg h10]
  by_cases h11 : s = "1.2.840.10008.1.2.5"
  · rw [if_pos h11]
    constructor
    · rintro ⟨cfg, hcfg⟩
      cases hcfg
    · rintro (hr | hr | hr | hr | hr | hr | hr | ⟨hj9, hj5, hj8⟩)
      · exact (h2 hr).elim
      · exact (h1 hr).elim
      · exact (h4 hr).elim
      · exact (h5a hr).elim
      · exact (h5b hr).elim
      · exact (h6a hr).elim
      · exact (h6b hr).elim
      · exact (h9 hj9).elim
  rw [if_neg h11]
  constructor
  · rintro ⟨cfg, hcfg⟩
    cases hcfg
  · rintro (hr | hr | hr | hr | hr | hr | hr | ⟨hj9, hj5, hj8⟩)
    · exact (h2 hr).elim
    · exact (h1 hr).elim
    · exact (h4 hr).elim
    · exact (h5a hr).elim
    · exact (h5b hr).elim
    · exact (h6a hr).elim
    · exact (h6b hr).elim
    · exact (h9 hj9).elim

/-- C7 counterexample: the claim says a zero-VL element's value is an
empty sequence for every VR including the string class, but a zero-VL
`"PN"` element stores `"".split("\\") = [""]`: one empty component, not
zero. -/
theorem C7_cex :
    (readDataElement ⟨[0x10, 0x00, 0x10, 0x00, 80, 78, 0, 0], true, false,
        fun _ _ => none, []⟩ 3 0).map (fun e => (jsValueLen e.value, e.vr)) =
      some (1, "PN") ∧ (1 : Nat) ≠ 0 := by
  exact ⟨rfl, by decide⟩

/-- C7 (amended): every data element with wire VL zero (not the undefined
sentinel) decodes successfully, consuming no value bytes; the stored value
is empty for every non-string-class VR, while a string-class VR stores the
single empty component `[""]` (the JS split of the empty string). -/
theorem C7_zero_vl (ctx : Ctx) (rde : Nat → Option DataElement) (fuel : Nat)
    (name vr : String) (off : Nat) :
    ∃ v, readValue ctx rde fuel name vr (.num 0) 0 off = some (v, off) ∧
      (stringClassVR vr = true → v = .strs [""]) ∧
      (stringClassVR vr = false → jsValueLen v = 0) := by
  unfold readValue
  have hpix : ¬(name = "x7FE00010" ∧ (VLField.num 0) = VLField.ul) := by
    rintro ⟨_, hcon⟩
    cases hcon
  rw [if_neg hpix]
  by_cases hOW : vr = "OW" ∨ vr = "OF" ∨ vr = "ox"
  · rw [if_pos hOW]
    by_cases hba : bitsAllocated8 ctx.elems = true
    · rw [if_pos hba]
      refine ⟨.nums [], rfl, fun hsc => ?_, fun _ => rfl⟩
      rcases hOW with h | h | h <;> subst h <;> exact absurd hsc (by decide)
    · rw [if_neg hba]
      refine ⟨.nums [], rfl, fun hsc => ?_, fun _ => rfl⟩
      rcases hOW with h | h | h <;> subst h <;> exact absurd hsc (by decide)
  rw [if_neg hOW]
  by_cases hOB : vr = "OB"
  · rw [if_pos hOB]
    subst hOB
    exact ⟨.nums [], rfl, fun hsc => absurd hsc (by decide), fun _ => rfl⟩
  rw [if_neg hOB]
  by_cases hUS : vr = "US"
  · rw [if_pos hUS]
    subst hUS
    exact ⟨.nums [], rfl, fun hsc => absurd hsc (by decide), fun _ => rfl⟩
  rw [if_neg hUS]
  by_cases hUL : vr = "UL"
  · rw [if_pos hUL]
    subst hUL
    exact ⟨.nums [], rfl, fun hsc => absurd hsc (by decide), fun _ => rfl⟩
  rw [if_neg hUL]
  by_cases hSS : vr = "SS"
  · rw [if_pos hSS]
    subst hSS
    exact ⟨.nums [], rfl, fun hsc => absurd hsc (by decide), fun _ => rfl⟩
  rw [if_neg hSS]
  by_cases hSL : vr = "SL"
  · rw [if_pos hSL]
    subst hSL
    exact ⟨.nums [], rfl, fun hsc => absurd hsc (by decide), fun _ => rfl⟩
  rw [if_neg hSL]
  by_cases hFL : vr = "FL"
  · rw [if_pos hFL]
    subst hFL
    exact ⟨.nums [], rfl, fun hsc => absurd hsc (by decide), fun _ => rfl⟩
  rw [if_neg hFL]
  by_cases hFD : vr = "FD"
  · rw [if_pos hFD]
    subst hFD
    exact ⟨.nums [], rfl, fun hsc => absurd hsc (by decide), fun _ => rfl⟩
  rw [if_neg hFD]
  by_cases hAT : vr = "AT"
  · rw [if_pos hAT]
    subst hAT
    exact ⟨.strs [], rfl, fun hsc => absurd hsc (by decide), fun _ => rfl⟩
  rw [if_neg hAT]
  by_cases hUN : vr = "UN"
  · rw [if_pos hUN]
    subst hUN
    exact ⟨.nums [], rfl, fun hsc => absurd hsc (by decide), fun _ => rfl⟩
  rw [if_neg hUN]
  by_cases hSQ : vr = "SQ"
  · rw [if_pos hSQ]
    subst hSQ
    exact ⟨.items [], rfl, fun hsc => absurd hsc (by decide), fun _ => rfl⟩
  rw [if_neg hSQ]
  refine ⟨.strs [""], rfl, fun _ => rfl, fun hsc => ?_⟩
  have h1 : ¬ vr = "OW" := fun hc => hOW (Or.inl hc)
  have h2 : ¬ vr = "OF" := fun hc => hOW (Or.inr (Or.inl hc))
  have h3 : ¬ vr = "ox" := fun hc => hOW (Or.inr (Or.inr hc))
  have hsc' : stringClassVR vr = true := by
    simp [stringClassVR, h1, h2, h3, hOB, hUS, hUL, hSS, hSL, hFL, hFD, hAT, hUN, hSQ]
  rw [hsc'] at hsc
  cases hsc

/-- C7 witness: the amended statement instantiated at a zero-VL `"PN"`
read (string class) over an empty context: the value is the single empty
component and no bytes are consumed. -/
theorem C7_witness :
    readValue ⟨[], true, false, fun _ _ => none, []⟩ (fun _ => none) 0
      "x00100010" "PN" (.num 0) 0 5 = some (.strs [""], 5) := by
  obtain ⟨v, hv, hs, _⟩ :=
    C7_zero_vl ⟨[], true, false, fun _ _ => none, []⟩ (fun _ => none) 0 "x00100010" "PN" 5
  rw [hs rfl] at hv
  exact hv

theorem pixLoop_mono (read : Nat → Option DataElement)
    (hm : ∀ o d, read o = some d → o ≤ d.endOffset) :
    ∀ (fuel off : Nat) (l : List DataElement) (e : Nat),
      pixLoop read fuel off = some (l, e) → off ≤ e := by
  intro fuel
  induction fuel with
  | zero =>
    intro off l e h
    cases h
  | succ n ih =>
    intro off l e h
    unfold pixLoop at h
    cases hread : read off with
    | none =>
      rw [hread] at h
      dsimp only at h
      cases h
    | some item =>
      rw [hread] at h
      dsimp only at h
      by_cases hd : item.tag.name = "xFFFEE0DD"
      · rw [if_pos hd] at h
        cases h
        exact hm off item hread
      · rw [if_neg hd] at h
        cases hloop : pixLoop read n item.endOffset with
        | none =>
          rw [hloop] at h
          cases h
        | some p =>
          rw [hloop] at h
          obtain ⟨l', e'⟩ := p
          cases h
          exact le_trans (hm off item hread) (ih item.endOffset _ _ hloop)

theorem readPixelItemDataElement_mono (read : Nat → Option DataElement)
    (hm : ∀ o d, read o = some d → o ≤ d.endOffset)
    (fuel off : Nat) (r : PixResult)
    (h : readPixelItemDataElement read fuel off = some r) : off ≤ r.endOffset := by
  unfold readPixelItemDataElement at h
  cases hread : read off with
  | none =>
    rw [hread] at h
    dsimp only at h
    cases h
  | some bot =>
    rw [hread] at h
    dsimp only at h
    cases hloop : pixLoop read fuel bot.endOffset with
    | none =>
      rw [hloop] at h
      cases h
    | some p =>
      rw [hloop] at h
      obtain ⟨l, e⟩ := p
      cases h
      exact le_trans (hm off bot hread) (pixLoop_mono read hm fuel bot.endOffset _ _ hloop)

theorem childLoopExp_bound (read : Nat → Option DataElement)
    (hm : ∀ o d, read o = some d → o ≤ d.endOffset) :
    ∀ (fuel off endOff : Nat) (acc : ElemMap) (d : ElemMap) (e : Nat),
      childLoopExp read fuel off endOff acc = some (d, e) →
      endOff ≤ e ∨ (endOff ≤ off ∧ e = off) := by
  intro fuel
  induction fuel with
  | zero =>
    intro off endOff acc d e h
    unfold childLoopExp at h
    by_cases hlt : off < endOff
    · rw [if_pos hlt] at h
      cases h
    · rw [if_neg hlt] at h
      cases h
      exact Or.inr ⟨Nat.le_of_not_lt hlt, rfl⟩
  | succ n ih =>
    intro off endOff acc d e h
    unfold childLoopExp at h
    by_cases hlt : off < endOff
    · rw [if_pos hlt] at h
      cases hread : read off with
      | none =>
        rw [hread] at h
        dsimp only at h
        cases h
      | some it =>
        rw [hread] at h
        dsimp only at h
        rcases ih it.endOffset endOff _ d e h with h1 | ⟨h2, h3⟩
        · exact Or.inl h1
        · exact Or.inl (by omega)
    · rw [if_neg hlt] at h
      cases h
      exact Or.inr ⟨Nat.le_of_not_lt hlt, rfl⟩

theorem childLoopUL_mono (read : Nat → Option DataElement)
    (hm : ∀ o d, read o = some d → o ≤ d.endOffset) :
    ∀ (fuel off : Nat) (acc : ElemMap) (d : ElemMap) (e : Nat),
      childLoopUL read fuel off acc = some (d, e) → off ≤ e := by
  intro fuel
  induction fuel with
  | zero =>
    intro off acc d e h
    cases h
  | succ n ih =>
    intro off acc d e h
    unfold childLoopUL at h
    cases hread : read off with
    | none =>
      rw [hread] at h
      dsimp only at h
      cases h
    | some it =>
      rw [hread] at h
      dsimp only at h
      by_cases hd : it.tag.name = "xFFFEE00D"
      · rw [if_pos hd] at h
        cases h
        exact hm off it hread
      · rw [if_neg hd] at h
        exact le_trans (hm off it hread) (ih it.endOffset _ d e h)

theorem readItemDataElement_mono (read : Nat → Option DataElement)
    (hm : ∀ o d, read o = some d → o ≤ d.endOffset)
    (fuel off : Nat) (r : ItemResult)
    (h : readItemDataElement read fuel off = some r) : off ≤ r.endOffset := by
  unfold readItemDataElement at h
  cases hread : read off with
  | none =>
    rw [hread] at h
    dsimp only at h
    cases h
  | some item =>
    rw [hread] at h
    dsimp only at h
    by_cases hd : item.tag.name = "xFFFEE0DD"
    · rw [if_pos hd] at h
      cases h
      exact hm off item hread
    · rw [if_neg hd] at h
      cases hvl : item.vl with
      | num vl =>
        rw [hvl] at h
        dsimp only at h
        by_cases hz : vl ≠ 0
        · rw [if_pos hz] at h
          cases hloop : childLoopExp read fuel (item.endOffset - vl) item.endOffset
              (jsInsert [] item.tag.name item) with
          | none =>
            rw [hloop] at h
            cases h
          | some p =>
            rw [hloop] at h
            obtain ⟨d, e⟩ := p
            cases h
            rcases childLoopExp_bound read hm fuel (item.endOffset - vl) item.endOffset _ _ _ hloop with
              h1 | ⟨h2, h3⟩
            · exact le_trans (hm off item hread) h1
            · have hoi := hm off item hread
              omega
        · rw [if_neg hz] at h
          cases h
          exact hm off item hread
      | ul =>
        rw [hvl] at h
        dsimp only at h
        cases hloop : childLoopUL read fuel item.endOffset (jsInsert [] item.tag.name item) with
        | none =>
          rw [hloop] at h
          cases h
        | some p =>
          rw [hloop] at h
          obtain ⟨d, e⟩ := p
          cases h
          exact le_trans (hm off item hread)
            (childLoopUL_mono read hm fuel item.endOffset _ _ _ hloop)

theorem sqLoopExp_bound (readItem : Nat → Option ItemResult)
    (hm : ∀ o r, readItem o = some r → o ≤ r.endOffset) :
    ∀ (fuel off endOff : Nat) (l : List ElemMap) (e : Nat),
      sqLoopExp readItem fuel off endOff = some (l, e) →
      endOff ≤ e ∨ (endOff ≤ off ∧ e = off) := by
  intro fuel
  induction fuel with
  | zero =>
    intro off endOff l e h
    unfold sqLoopExp at h
    by_cases hlt : off < endOff
    · rw [if_pos hlt] at h
      cases h
    · rw [if_neg hlt] at h
      cases h
      exact Or.inr ⟨Nat.le_of_not_lt hlt, rfl⟩
  | succ n ih =>
    intro off endOff l e h
    unfold sqLoopExp at h
    by_cases hlt : off < endOff
    · rw [if_pos hlt] at h
      cases hread : readItem off with
      | none =>
        rw [hread] at h
        dsimp only at h
        cases h
      | some r0 =>
        rw [hread] at h
        dsimp only at h
        cases hloop : sqLoopExp readItem n r0.endOffset endOff with
        | none =>
          rw [hloop] at h
          cases h
        | some p =>
          rw [hloop] at h
          obtain ⟨l', e'⟩ := p
          cases h
          rcases ih r0.endOffset endOff _ _ hloop with h1 | ⟨h2, h3⟩
          · exact Or.inl h1
          · exact Or.inl (by omega)
    · rw [if_neg hlt] at h
      cases h
      exact Or.inr ⟨Nat.le_of_not_lt hlt, rfl⟩

theorem sqLoopUL_mono (readItem : Nat → Option ItemResult)
    (hm : ∀ o r, readItem o = some r → o ≤ r.endOffset) :
    ∀ (fuel off : Nat) (l : List ElemMap) (e : Nat),
      sqLoopUL readItem fuel off = some (l, e) → off ≤ e := by
  intro fuel
  induction fuel with
  | zero =>
    intro off l e h
    cases h
  | succ n ih =>
    intro off l e h
    unfold sqLoopUL at h
    cases hread : readItem off with
    | none =>
      rw [hread] at h
      dsimp only at h
      cases h
    | some r0 =>
      rw [hread] at h
      dsimp only at h
      by_cases hd : r0.isSeqDelim = true
      · rw [if_pos hd] at h
        cases h
        exact hm off r0 hread
      · rw [if_neg hd] at h
        cases hloop : sqLoopUL readItem n r0.endOffset with
        | none =>
          rw [hloop] at h
          cases h
        | some p =>
          rw [hloop] at h
          obtain ⟨l', e'⟩ := p
          cases h
          exact le_trans (hm off r0 hread) (ih r0.endOffset _ _ hloop)

theorem readVRVL_offsets (ctx : Ctx) (off : Nat) :
    (readVRVL ctx (readTag ctx off)).2.2.2 =
      off + prefixSizeOf ctx.implicit (readTag ctx off) (readVRVL ctx (readTag ctx off)).1 ∧
    (readVRVL ctx (readTag ctx off)).2.2.1 = effectiveVL (readVRVL ctx (readTag ctx off)).2.1 := by
  have hend : (readTag ctx off).endOffset = off + 4 := rfl
  simp only [readVRVL, prefixSizeOf, hend]
  cases htv : isTagWithVR (readTag ctx off).group (readTag ctx off).element with
  | false =>
    simp only [htv, Bool.false_eq_true, if_false]
    by_cases hs : readUint32 ctx.buf ctx.le (off + 4) = 4294967295
    · simp [hs, effectiveVL]
      all_goals omega
    · simp [hs, effectiveVL]
      all_goals omega
  | true =>
    simp only [htv, if_true]
    cases himp : ctx.implicit with
    | true =>
      simp only [himp, if_true]
      by_cases hs : readUint32 ctx.buf ctx.le (off + 4) = 4294967295
      · simp [hs, effectiveVL]
        all_goals omega
      · simp [hs, effectiveVL]
        all_goals omega
    | false =>
      simp only [himp, Bool.false_eq_true, if_false]
      cases h32 : is32bitVLVR (readString ctx.buf (off + 4) 2) with
      | true =>
        simp only [h32, if_true]
        by_cases hs : readUint32 ctx.buf ctx.le (off + 4 + 4) = 4294967295
        · simp [hs, h32, effectiveVL]
          all_goals omega
        · simp [hs, h32, effectiveVL]
          all_goals omega
      | false =>
        simp only [h32, Bool.false_eq_true, if_false]
        by_cases hs : readUint16 ctx.buf ctx.le (off + 4 + 2) = 4294967295
        · simp [hs, h32, effectiveVL]
          all_goals omega
        · simp [hs, h32, effectiveVL]
          all_goals omega

theorem readValue_offset (ctx : Ctx) (rde : Nat → Option DataElement)
    (hm : ∀ o d, rde o = some d → o ≤ d.endOffset)
    (fuel : Nat) (name vr : String) (vlf : VLField) (vl off : Nat)
    (v : DicomValue) (e : Nat)
    (h : readValue ctx rde fuel name vr vlf vl off = some (v, e)) :
    off ≤ e ∧
      ((vr ≠ "SQ" ∧ ¬(name = "x7FE00010" ∧ vlf = .ul)) → e = off + vl) := by
  have hmi : ∀ o r, readItemDataElement rde fuel o = some r → o ≤ r.endOffset :=
    fun o r hr => readItemDataElement_mono rde hm fuel o r hr
  unfold readValue at h
  by_cases hpix : name = "x7FE00010" ∧ vlf = VLField.ul
  · rw [if_pos hpix] at h
    cases hp : readPixelItemDataElement rde fuel off with
    | none =>
      rw [hp] at h
      cases h
    | some r =>
      rw [hp] at h
      cases h
      exact ⟨readPixelItemDataElement_mono rde hm fuel off r hp,
        fun hc => absurd hpix hc.2⟩
  rw [if_neg hpix] at h
  by_cases hOW : vr = "OW" ∨ vr = "OF" ∨ vr = "ox"
  · rw [if_pos hOW] at h
    by_cases hba : bitsAllocated8 ctx.elems = true
    · rw [if_pos hba] at h
      cases h
      exact ⟨Nat.le_add_right off vl, fun _ => rfl⟩
    · rw [if_neg hba] at h
      cases h
      exact ⟨Nat.le_add_right off vl, fun _ => rfl⟩
  rw [if_neg hOW] at h
  by_cases hOB : vr = "OB"
  · rw [if_pos hOB] at h
    cases h
    exact ⟨Nat.le_add_right off vl, fun _ => rfl⟩
  rw [if_neg hOB] at h
  by_cases hUS : vr = "US"
  · rw [if_pos hUS] at h
    cases h
    exact ⟨Nat.le_add_right off vl, fun _ => rfl⟩
  rw [if_neg hUS] at h
  by_cases hUL : vr = "UL"
  · rw [if_pos hUL] at h
    cases h
    exact ⟨Nat.le_add_right off vl, fun _ => rfl⟩
  rw [if_neg hUL] at h
  by_cases hSS : vr = "SS"
  · rw [if_pos hSS] at h
    cases h
    exact ⟨Nat.le_add_right off vl, fun _ => rfl⟩
  rw [if_neg hSS] at h
  by_cases hSL : vr = "SL"
  · rw [if_pos hSL] at h
    cases h
    exact ⟨Nat.le_add_right off vl, fun _ => rfl⟩
  rw [if_neg hSL] at h
  by_cases hFL : vr = "FL"
  · rw [if_pos hFL] at h
    cases h
    exact ⟨Nat.le_add_right off vl, fun _ => rfl⟩
  rw [if_neg hFL] at h
  by_cases hFD : vr = "FD"
  · rw [if_pos hFD] at h
    cases h
    exact ⟨Nat.le_add_right off vl, fun _ => rfl⟩
  rw [if_neg hFD] at h
  by_cases hAT : vr = "AT"
  · rw [if_pos hAT] at h
    cases h
    exact ⟨Nat.le_add_right off vl, fun _ => rfl⟩
  rw [if_neg hAT] at h
  by_cases hUN : vr = "UN"
  · rw [if_pos hUN] at h
    cases h
    exact ⟨Nat.le_add_right off vl, fun _ => rfl⟩
  rw [if_neg hUN] at h
  by_cases hSQ : vr = "SQ"
  · rw [if_pos hSQ] at h
    refine ⟨?_, fun hc => absurd hSQ hc.1⟩
    cases hvlf : vlf with
    | num n =>
      rw [hvlf] at h
      dsimp only at h
      by_cases hz : vl ≠ 0
      · rw [if_pos hz] at h
        cases hloop : sqLoopExp (readItemDataElement rde fuel) fuel off (off + vl) with
        | none =>
          rw [hloop] at h
          cases h
        | some p =>
          rw [hloop] at h
          obtain ⟨l, e'⟩ := p
          cases h
          rcases sqLoopExp_bound (readItemDataElement rde fuel) hmi fuel off (off + vl) _ _
            hloop with h1 | ⟨h2, h3⟩
          · omega
          · omega
      · rw [if_neg hz] at h
        cases h
        exact le_refl off
    | ul =>
      rw [hvlf] at h
      dsimp only at h
      cases hloop : sqLoopUL (readItemDataElement rde fuel) fuel off with
      | none =>
        rw [hloop] at h
        cases h
      | some p =>
        rw [hloop] at h
        obtain ⟨l, e'⟩ := p
        cases h
        exact sqLoopUL_mono (readItemDataElement rde fuel) hmi fuel off _ _ hloop
  rw [if_neg hSQ] at h
  cases h
  exact ⟨Nat.le_add_right off vl, fun _ => rfl⟩

theorem readDataElement_mono (ctx : Ctx) :
    ∀ (fuel off : Nat) (elt : DataElement),
      readDataElement ctx fuel off = some elt → off ≤ elt.endOffset := by
  intro fuel
  induction fuel with
  | zero =>
    intro off elt h
    cases h
  | succ n ih =>
    intro off elt h
    unfold readDataElement at h
    rw [Option.map_eq_some'] at h
    obtain ⟨⟨v, e⟩, hrv, helt⟩ := h
    have hofs := (readVRVL_offsets ctx off).1
    have hro := readValue_offset ctx (readDataElement ctx n) (fun o d hd => ih o d hd) n
      (readTag ctx off).name (readVRVL ctx (readTag ctx off)).1
      (readVRVL ctx (readTag ctx off)).2.1 (readVRVL ctx (readTag ctx off)).2.2.1
      (readVRVL ctx (readTag ctx off)).2.2.2 v e hrv
    have hee : elt.endOffset = e := by
      rw [← helt]
      rfl
    omega

/-- C4 counterexample: the claim forces `effectiveVL = 0` whenever the
wire VL is the undefined sentinel, but decoding an explicit undefined
length `SQ` immediately followed by its sequence delimiter ends at offset
20, not `0 + 12 + 0 = 12`: the delimiter bytes are part of the consumed
value region. -/
theorem C4_cex :
    (readDataElement ⟨[0x08, 0x00, 0x40, 0x11, 83, 81, 0, 0, 0xFF, 0xFF, 0xFF, 0xFF,
        0xFE, 0xFF, 0xDD, 0xE0, 0, 0, 0, 0], true, false, fun _ _ => none, []⟩ 6 0).map
      (fun e => (e.vr, e.vl, e.endOffset)) = some ("SQ", .ul, 20) ∧ (20 : Nat) ≠ 0 + 12 + 0 := by
  exact ⟨rfl, by decide⟩

/-- C4 (amended): every decoded element satisfies
`endOffset = startOffset + prefixSize + consumed`, with `prefixSize`
exactly as the claim classifies it (8 for implicit, explicit 16-bit-VL
VRs and the no-VR item/delimiter tags; 12 for explicit 32-bit-VL VRs);
`consumed` equals the effective VL (0 for the undefined sentinel) for
every element except `SQ` elements and the undefined-length pixel-data
element, whose value reads consume the item bytes up to their
delimiters. -/
theorem C4_endOffset (ctx : Ctx) (fuel off : Nat) (elt : DataElement)
    (h : readDataElement ctx (fuel + 1) off = some elt) :
    ∃ consumed : Nat,
      elt.endOffset = off + prefixSizeOf ctx.implicit elt.tag elt.vr + consumed ∧
      ((elt.vr ≠ "SQ" ∧ ¬(elt.tag.name = "x7FE00010" ∧ elt.vl = .ul)) →
        consumed = effectiveVL elt.vl) := by
  unfold readDataElement at h
  rw [Option.map_eq_some'] at h
  obtain ⟨⟨v, e⟩, hrv, helt⟩ := h
  obtain ⟨hofs, hvle⟩ := readVRVL_offsets ctx off
  obtain ⟨hle, heq⟩ := readValue_offset ctx (readDataElement ctx fuel)
    (fun o d hd => readDataElement_mono ctx fuel o d hd) fuel
    (readTag ctx off).name (readVRVL ctx (readTag ctx off)).1
    (readVRVL ctx (readTag ctx off)).2.1 (readVRVL ctx (readTag ctx off)).2.2.1
    (readVRVL ctx (readTag ctx off)).2.2.2 v e hrv
  have htg : elt.tag = readTag ctx off := by
    rw [← helt]
    rfl
  have hvr : elt.vr = (readVRVL ctx (readTag ctx off)).1 := by
    rw [← helt]
    rfl
  have hvl : elt.vl = (readVRVL ctx (readTag ctx off)).2.1 := by
    rw [← helt]
    rfl
  have hee : elt.endOffset = e := by
    rw [← helt]
    rfl
  refine ⟨e - (readVRVL ctx (readTag ctx off)).2.2.2, ?_, ?_⟩
  · rw [hee, htg, hvr]
    omega
  · intro hcond
    rw [hvr, htg, hvl] at hcond
    have he2 := heq ⟨hcond.1, hcond.2⟩
    rw [hvl]
    omega

/-- C4 witness: the amended equation at a concrete explicit `US` element:
end offset 10 = start 0 + prefix 8 + effective VL 2. -/
theorem C4_witness :
    c4elt.endOffset = 0 + prefixSizeOf false c4elt.tag c4elt.vr + effectiveVL c4elt.vl := by
  obtain ⟨c, hc, himp⟩ := C4_endOffset c4ctx 4 0 c4elt (by rfl)
  rw [himp (by decide)] at hc
  exact hc

theorem sqLoopUL_trace (readItem : Nat → Option ItemResult) :
    ∀ (fuel off : Nat) (l : List ElemMap) (e : Nat),
      sqLoopUL readItem fuel off = some (l, e) →
      ∃ (rs : List ItemResult) (r : ItemResult),
        ItemReads readItem off (rs ++ [r]) e ∧
        r.isSeqDelim = true ∧ (∀ x ∈ rs, x.isSeqDelim = false) ∧
        l = rs.map ItemResult.data ∧ e = r.endOffset ∧
        (rs ++ [r]).countP (fun x => x.isSeqDelim) = 1 := by
  intro fuel
  induction fuel with
  | zero =>
    intro off l e h
    cases h
  | succ n ih =>
    intro off l e h
    unfold sqLoopUL at h
    cases hread : readItem off with
    | none =>
      rw [hread] at h
      cases h
    | some r0 =>
      rw [hread] at h
      dsimp only at h
      by_cases hd : r0.isSeqDelim = true
      · rw [if_pos hd] at h
        cases h
        refine ⟨[], r0, ?_, hd, ?_, rfl, rfl, ?_⟩
        · exact ItemReads.cons off r0 [] r0.endOffset hread (ItemReads.nil r0.endOffset)
        · intro x hx
          cases hx
        · simp [List.countP_cons, hd]
      · rw [if_neg hd] at h
        cases hloop : sqLoopUL readItem n r0.endOffset with
        | none =>
          rw [hloop] at h
          cases h
        | some p =>
          rw [hloop] at h
          obtain ⟨l1, e1⟩ := p
          cases h
          obtain ⟨rs, r, hir, hdel, hnd, hmap, hendd, hcount⟩ := ih r0.endOffset _ _ hloop
          refine ⟨r0 :: rs, r, ?_, hdel, ?_, ?_, hendd, ?_⟩
          · exact ItemReads.cons off r0 (rs ++ [r]) _ hread hir
          · intro x hx
            cases hx with
            | head => simpa using hd
            | tail _ hx2 => exact hnd x hx2
          · simp [hmap]
          · rw [List.cons_append, List.countP_cons]
            simp [hd, hcount]

/-- C5: decoding an undefined-length `SQ` value (at a non-pixel-data tag)
reads items until the first one reporting the sequence-delimitation tag
`FFFE,E0DD`: the consumed item reads form a chain whose final read is the
single delimiter report, the delimiter's end offset becomes the element's
end offset, the delimiter contributes nothing to the stored item list, and
exactly one delimiter report is consumed.  (`readValue` is the value
dispatch of `readDataElement`, which stores the resulting value and end
offset on the returned element.) -/
theorem C5_sq_undefined (ctx : Ctx) (rde : Nat → Option DataElement) (fuel : Nat)
    (name : String) (off : Nat) (v : DicomValue) (e : Nat)
    (hname : name ≠ "x7FE00010")
    (h : readValue ctx rde fuel name "SQ" .ul 0 off = some (v, e)) :
    ∃ (rs : List ItemResult) (r : ItemResult),
      ItemReads (readItemDataElement rde fuel) off (rs ++ [r]) e ∧
      r.isSeqDelim = true ∧ (∀ x ∈ rs, x.isSeqDelim = false) ∧
      v = .items (rs.map ItemResult.data) ∧ e = r.endOffset ∧
      (rs ++ [r]).countP (fun x => x.isSeqDelim) = 1 := by
  unfold readValue at h
  rw [if_neg (fun hc => hname hc.1)] at h
  rw [if_neg (by decide : ¬("SQ" = "OW" ∨ "SQ" = "OF" ∨ "SQ" = "ox"))] at h
  rw [if_neg (by decide : ¬("SQ" = "OB"))] at h
  rw [if_neg (by decide : ¬("SQ" = "US"))] at h
  rw [if_neg (by decide : ¬("SQ" = "UL"))] at h
  rw [if_neg (by decide : ¬("SQ" = "SS"))] at h
  rw [if_neg (by decide : ¬("SQ" = "SL"))] at h
  rw [if_neg (by decide : ¬("SQ" = "FL"))] at h
  rw [if_neg (by decide : ¬("SQ" = "FD"))] at h
  rw [if_neg (by decide : ¬("SQ" = "AT"))] at h
  rw [if_neg (by decide : ¬("SQ" = "UN"))] at h
  rw [if_pos (rfl : "SQ" = "SQ")] at h
  dsimp only at h
  cases hloop : sqLoopUL (readItemDataElement rde fuel) fuel off with
  | none =>
    rw [hloop] at h
    cases h
  | some p =>
    rw [hloop] at h
    obtain ⟨l, e1⟩ := p
    cases h
    obtain ⟨rs, r, hir, hdel, hnd, hmap, hendd, hcount⟩ :=
      sqLoopUL_trace (readItemDataElement rde fuel) fuel off _ _ hloop
    exact ⟨rs, r, hir, hdel, hnd, by rw [hmap], hendd, hcount⟩

theorem ItemReads_nil_eq (readItem : Nat → Option ItemResult) (off e : Nat)
    (h : ItemReads readItem off [] e) : e = off := by
  cases h
  rfl

theorem ItemReads_cons_inv (readItem : Nat → Option ItemResult) (off e : Nat)
    (r : ItemResult) (rs : List ItemResult)
    (h : ItemReads readItem off (r :: rs) e) :
    readItem off = some r ∧ ItemReads readItem r.endOffset rs e := by
  cases h with
  | cons _ _ _ _ hread hrest => exact ⟨hread, hrest⟩

/-- C5 witness: over the delimiter-only buffer, the undefined-length `SQ`
value read at offset 0 stores no items and ends at the delimiter's end
offset 8, which is also what the single item read reports. -/
theorem C5_witness :
    (readItemDataElement (readDataElement c5ctx 5) 5 0).map
      (fun r => (r.isSeqDelim, r.endOffset)) = some (true, 8) := by
  obtain ⟨rs, r, hir, hdel, hnd, hv, hendd, hcount⟩ :=
    C5_sq_undefined c5ctx (readDataElement c5ctx 5) 5 "x00081140" 0 (.items []) 8
      (by decide) rfl
  have hrs : rs = [] := by
    have hinj : ([] : List ElemMap) = rs.map ItemResult.data := by
      injection hv
    cases rs with
    | nil => rfl
    | cons a as => cases hinj
  subst hrs
  rw [List.nil_append] at hir
  obtain ⟨hread, hrest⟩ := ItemReads_cons_inv _ _ _ _ _ hir
  have he := ItemReads_nil_eq _ _ _ hrest
  rw [hread]
  simp [hdel, ← he]

theorem pixLoop_no_delim (read : Nat → Option DataElement) :
    ∀ (fuel off : Nat) (l : List DataElement) (e : Nat),
      pixLoop read fuel off = some (l, e) → ∀ x ∈ l, x.tag.name ≠ "xFFFEE0DD" := by
  intro fuel
  induction fuel with
  | zero =>
    intro off l e h
    cases h
  | succ n ih =>
    intro off l e h x hx
    unfold pixLoop at h
    cases hread : read off with
    | none =>
      rw [hread] at h
      cases h
    | some item =>
      rw [hread] at h
      dsimp only at h
      by_cases hd : item.tag.name = "xFFFEE0DD"
      · rw [if_pos hd] at h
        cases h
        cases hx
      · rw [if_neg hd] at h
        cases hloop : pixLoop read n item.endOffset with
        | none =>
          rw [hloop] at h
          cases h
        | some p =>
          rw [hloop] at h
          obtain ⟨l1, e1⟩ := p
          cases h
          cases hx with
          | head => exact hd
          | tail _ hx2 => exact ih item.endOffset _ _ hloop x hx2

/-- C1 counterexample: the claim says a stream with a BOT item and two
fragment items yields a value list of exactly 3 items with the BOT first,
but the source reads the first (BOT) item without pushing it, so the list
holds only the 2 fragments (and the first stored entry has the fragment's
VL 2, not the BOT's VL 0). -/
theorem C1_cex :
    (readPixelItemDataElement (readDataElement c1ctx 10) 10 0).map
      (fun r => (r.data.length, r.data.map (fun x => x.vl), r.endOffset)) =
      some (2, [.num 2, .num 2], 36) ∧ (2 : Nat) ≠ 3 := by
  exact ⟨rfl, by decide⟩

/-- C1 (amended): a successful `readPixelItemDataElement` run first reads
one item (the Basic Offset Table), which is consumed but NOT stored, and
then collects every non-delimiter fragment item in wire order starting at
the BOT's end offset, stopping at (and dropping) the sequence
delimitation item: no stored entry carries the delimiter tag, and the data
list is exactly what the fragment loop collects after the BOT. -/
theorem C1_pixel_items (read : Nat → Option DataElement) (fuel off : Nat)
    (r : PixResult) (h : readPixelItemDataElement read fuel off = some r) :
    (∀ x ∈ r.data, x.tag.name ≠ "xFFFEE0DD") ∧
    ∃ bot, read off = some bot ∧
      pixLoop read fuel bot.endOffset = some (r.data, r.endOffset) := by
  unfold readPixelItemDataElement at h
  cases hread : read off with
  | none =>
    rw [hread] at h
    cases h
  | some bot =>
    rw [hread] at h
    dsimp only at h
    cases hloop : pixLoop read fuel bot.endOffset with
    | none =>
      rw [hloop] at h
      cases h
    | some p =>
      rw [hloop] at h
      obtain ⟨l, e⟩ := p
      cases h
      exact ⟨pixLoop_no_delim read fuel bot.endOffset _ _ hloop, bot, rfl, hloop⟩

/-- C1 witness: on the concrete BOT + 2 fragments stream, the stored list
has the two fragments only, collected by the fragment loop from the BOT's
end offset 8. -/
theorem C1_witness :
    c1res.data.length = 2 ∧
    pixLoop (readDataElement c1ctx 10) 10 8 = some (c1res.data, c1res.endOffset) := by
  obtain ⟨hnd, bot, hb, hl⟩ :=
    C1_pixel_items (readDataElement c1ctx 10) 10 0 c1res (by rfl)
  have hbot : bot = c1bot := by
    have h2 : readDataElement c1ctx 10 0 = some c1bot := rfl
    rw [hb] at h2
    exact Option.some.inj h2
  subst hbot
  have he : c1bot.endOffset = 8 := rfl
  rw [he] at hl
  exact ⟨rfl, hl⟩

theorem foldl_append_eq_flatMap {α β : Type} (f : α → List β) :
    ∀ (l : List α) (acc : List β),
      l.foldl (fun a x => a ++ f x) acc = acc ++ l.flatMap f := by
  intro l
  induction l with
  | nil =>
    intro acc
    simp
  | cons x xs ih =>
    intro acc
    simp [ih, List.append_assoc]

theorem toUint16List_bytes (f : DataElement) (hf : fragIsBytes f = true) :
    toUint16List f.value = fragNums f := by
  unfold fragIsBytes at hf
  unfold fragNums toUint16List
  cases hv : f.value with
  | nums ns =>
    rw [hv] at hf
    dsimp only at hf ⊢
    have hmap : ns.map (fun z => z % 65536) = ns.map (fun z => z) := by
      apply List.map_congr_left
      intro a ha
      have h2 := List.all_eq_true.mp hf a ha
      simp only [Bool.and_eq_true, decide_eq_true_eq] at h2
      exact Int.emod_eq_of_lt h2.1 h2.2
    rw [hmap, List.map_id']
  | strs l =>
    rw [hv] at hf
    cases hf
  | items l =>
    rw [hv] at hf
    cases hf
  | frags l =>
    rw [hv] at hf
    cases hf

theorem parse_ok_pixelBuffer (dict : String → String → Option String) (buf : List Nat)
    (fuel : Nat) (res : ParseResult) (h : parse dict buf fuel = .ok res) :
    computePixelBuffer res.elements = .ok res.pixelBuffer := by
  unfold parse at h
  by_cases hm : readString buf 128 4 ≠ "DICM"
  · rw [if_pos hm] at h
    cases h
  · rw [if_neg hm] at h
    unfold parseFromMeta at h
    cases h1 : readDataElement ⟨buf, true, false, dict, []⟩ fuel 132 with
    | none =>
      rw [h1] at h
      cases h
    | some fmigl =>
      rw [h1] at h
      dsimp only at h
      cases h2 : metaLoop dict buf fuel fmigl.endOffset
          ((metaLengthOf fmigl.value).map (fun m => (fmigl.endOffset : Int) + m))
          (jsInsert [] fmigl.tag.name fmigl) with
      | none =>
        rw [h2] at h
        cases h
      | some p1 =>
        rw [h2] at h
        obtain ⟨elems1, off1⟩ := p1
        dsimp only at h
        cases h3 : jsLookup elems1 "x00020010" with
        | none =>
          rw [h3] at h
          cases h
        | some tsElem =>
          rw [h3] at h
          dsimp only at h
          cases h4 : parseTSDispatch tsElem.value with
          | error msg =>
            rw [h4] at h
            cases h
          | ok cfg =>
            rw [h4] at h
            dsimp only at h
            cases h5 : dataLoop dict buf cfg fuel off1 elems1 with
            | none =>
              rw [h5] at h
              cases h
            | some p2 =>
              rw [h5] at h
              obtain ⟨elems2, off2⟩ := p2
              dsimp only at h
              cases h6 : computePixelBuffer elems2 with
              | error msg =>
                rw [h6] at h
                cases h
              | ok pix =>
                rw [h6] at h
                dsimp only at h
                cases h
                exact h6

/-- C2: after a successful `parse`, the stored pixel-data element
determines `pixelBuffer`: a defined (numeric) VL hands the element's value
through unchanged, while the undefined-length case concatenates, in order,
the value arrays of the stored fragment items into a single 16-bit-range
numeric array. -/
theorem C2_pixelBuffer (dict : String → String → Option String) (buf : List Nat)
    (fuel : Nat) (res : ParseResult) (e : DataElement)
    (hp : parse dict buf fuel = .ok res)
    (he : jsLookup res.elements "x7FE00010" = some e) :
    (∀ n, e.vl = .num n → res.pixelBuffer = e.value) ∧
    (∀ l, e.vl = .ul → e.value = .frags l → l.all fragIsBytes = true →
      res.pixelBuffer = .nums (l.flatMap fragNums)) := by
  have hc := parse_ok_pixelBuffer dict buf fuel res hp
  unfold computePixelBuffer at hc
  rw [he] at hc
  dsimp only at hc
  constructor
  · intro n hn
    rw [hn] at hc
    dsimp only at hc
    exact (Except.ok.inj hc).symm
  · intro l hul hfr hall
    rw [hul] at hc
    dsimp only at hc
    rw [hfr] at hc
    dsimp only at hc
    have hfold := foldl_append_eq_flatMap (fun it => toUint16List it.value) l []
    rw [hfold] at hc
    have hcong : l.flatMap (fun it => toUint16List it.value) = l.flatMap fragNums := by
      apply List.flatMap_congr
      intro x hx
      exact toUint16List_bytes x (List.all_eq_true.mp hall x hx)
    rw [List.nil_append, hcong] at hc
    exact (Except.ok.inj hc).symm

set_option maxRecDepth 200000 in
set_option maxHeartbeats 16000000 in
/-- C2 witness: on the concrete encapsulated stream, the assembled pixel
buffer is the in-order concatenation of the two stored fragments' byte
arrays, concretely `[1, 2, 3, 4]`. -/
theorem C2_witness :
    c2res.pixelBuffer = .nums (c2frags.flatMap fragNums) ∧
    c2res.pixelBuffer = .nums [1, 2, 3, 4] :=
  ⟨(C2_pixelBuffer c2dict c2buf 40 c2res c2e (by rfl) (by rfl)).2 c2frags
      (by rfl) (by rfl) (by rfl),
    by rfl⟩

end Dwv
